import Mathlib

/-!
# gotty `server/server.go`: a shallow embedding

Go strings are modelled as lists of characters (`GoString`); Go `error` values as the
inductive `GoError`; `http.Handler`s as functions from a request to the trace of
events the handler produces.
-/

namespace Gotty

/-- A Go `string`, as the list of its bytes, each byte written as the character with that
code. The strings `server.go` writes itself are ASCII. -/
abbrev GoString := List Char

/-- Go `strings.HasPrefix`. -/
def hasPrefix (s pre : GoString) : Bool := pre.isPrefixOf s

/-- Go `strings.HasSuffix`. -/
def hasSuffix (s suf : GoString) : Bool := suf.isSuffixOf s

/-- The fields of `Options` that `server.go` reads. -/
structure Options where
  Address : GoString := "0.0.0.0".toList
  Port : GoString := "8080".toList
  Path : GoString := "/".toList
  EnableRandomUrl : Bool := false
  RandomUrlLength : Nat := 8
  IndexFile : GoString := []
  TitleFormat : GoString := []
  WSOrigin : GoString := []
  EnableBasicAuth : Bool := false
  Credential : GoString := []
  SSOUrl : GoString := []
  TokenKeyName : GoString := "token".toList
  EnableTLS : Bool := false
  TLSCrtFile : GoString := []
  TLSKeyFile : GoString := []
  EnableTLSClientAuth : Bool := false
  TLSCACrtFile : GoString := []
  PermitWrite : Bool := false
  Once : Bool := false
  Timeout : Nat := 0

/-! ## `Run`, lines 112-121: the effective path -/

/-- The value of `path` that `Run` hands to `setupHandlers` (lines 112-121).
`generate` stands for `randomstring.Generate`, which is not part of this file. -/
def effectivePath (generate : Nat → GoString) (options : Options) : GoString :=
  let path := options.Path
  let path :=
    if options.EnableRandomUrl then
      "/".toList ++ generate options.RandomUrlLength ++ "/".toList
    else path
  let path := if !hasPrefix path "/".toList then "/".toList ++ path else path
  let path := if !hasSuffix path "/".toList then path ++ "/".toList else path
  path

/-! ## Paths -/

/-- Go `path.Split`: the path up to and including its final slash, and the rest. -/
def pathSplit (p : GoString) : GoString × GoString :=
  let (file, dir) := p.reverse.span (fun c => c != '/')
  (dir.reverse, file.reverse)

/-- The elements of a path between its slashes. -/
def splitSlash : GoString → List GoString
  | [] => [[]]
  | c :: cs =>
    if c = '/' then [] :: splitSlash cs
    else
      match splitSlash cs with
      | [] => [[c]]
      | s :: ss => (c :: s) :: ss

/-- One element of `path.Clean`: empty and `.` elements are dropped, `..` removes the
element before it (or is dropped at the root, or kept at the start of a relative path). -/
def cleanStep (rooted : Bool) (stack : List GoString) (seg : GoString) : List GoString :=
  if seg = [] ∨ seg = ['.'] then stack
  else if seg = ['.', '.'] then
    match stack with
    | top :: rest => if top = ['.', '.'] then seg :: stack else rest
    | [] => if rooted then [] else [seg]
  else seg :: stack

/-- Go `path.Clean`. -/
def pathClean (p : GoString) : GoString :=
  if p = [] then ['.']
  else
    let rooted := hasPrefix p ['/']
    let segs := (splitSlash p).foldl (cleanStep rooted) []
    let body := List.intercalate ['/'] segs.reverse
    let out := if rooted then '/' :: body else body
    if out = [] then ['.'] else out

/-! ## Requests, responses and handlers -/

/-- The result of `r.URL.Query()`: the key/value pairs of the query string, in order
of appearance. -/
abbrev Values := List (GoString × GoString)

/-- Go `url.Values.Get`: the first value associated with `key`, or `""`. -/
def Values.Get (v : Values) (key : GoString) : GoString :=
  match v.find? (fun kv => kv.1 == key) with
  | some kv => kv.2
  | none => []

/-- What the handlers of `server.go` read from an `*http.Request`. The request URI is in
origin form (`/path?query`), so `r.URL` has only a path and a query. -/
structure Request where
  /-- The field `r.URL.Path`. -/
  Path : GoString
  /-- The value of `r.URL.Query()`. -/
  Query : Values := []
  /-- The `user:password` pair carried by the `Authorization` header, if any. -/
  Credential : Option GoString := none
  /-- The values of the `Origin` header, `r.Header["Origin"]`. -/
  Origin : List GoString := []
  /-- The field `r.Host`. -/
  Host : GoString := []

/-- The wrapping stages of the site handler. -/
inductive Stage where
  | logging
  | compression
  | headers
  | basicAuth
  deriving DecidableEq, Repr

/-- The routes registered on `siteMux` (lines 218-227). -/
inductive SiteRoute where
  | index
  | static (file : GoString)
  | manifest
  | authToken
  | config
  deriving DecidableEq, Repr

/-- One observable step of serving a request. -/
inductive Event where
  /-- A wrapping stage was entered. -/
  | stage (s : Stage)
  /-- Basic Authentication answered with its challenge (401). -/
  | challenge
  /-- A handler registered on `siteMux` ran. -/
  | site (route : SiteRoute)
  /-- The handler made by `generateHandleWS` ran. -/
  | ws
  /-- A mux found no pattern for the path (404). -/
  | notFound
  /-- A mux answered by itself with a permanent redirect (301) to the path `target`,
  the query kept: the canonical form of the request path, or that path with a slash
  added. -/
  | muxRedirect (target : GoString)
  /-- A closure of `setupHandlers` called `http.Redirect(w, r, url, code)`, with
  `r.URL.Path = reqPath` at the call. -/
  | redirect (reqPath url : GoString) (code : Nat)
  /-- The call `http.Error(w, msg, code)`. -/
  | httpError (msg : GoString) (code : Nat)
  deriving DecidableEq, Repr

/-- An `http.Handler`: the trace of events serving a request produces. -/
abbrev Handler := Request → List Event

/-- Go `strings.TrimPrefix`. -/
def trimPrefix (s pre : GoString) : GoString :=
  if hasPrefix s pre then s.drop pre.length else s

/-- Go `http.StripPrefix` (for a request without `RawPath`). -/
def stripPrefix (pre : GoString) (h : Handler) : Handler := fun r =>
  let p := trimPrefix r.Path pre
  if p.length < r.Path.length then h { r with Path := p } else [Event.notFound]

/-- The handler `http.FileServer(http.FS(fs))`: serves the named embedded file. -/
def staticFileHandler : Handler := fun r => [Event.site (SiteRoute.static r.Path)]

/-- The pattern a `http.ServeMux` selects for a path among patterns ending in `/`:
the longest one that is a prefix of the path. -/
def longestPrefixMatch (routes : List (GoString × Handler)) (path : GoString) :
    Option (GoString × Handler) :=
  routes.foldl (fun best e =>
    if hasSuffix e.1 ['/'] && hasPrefix path e.1 then
      match best with
      | some b => if b.1.length < e.1.length then some e else some b
      | none => some e
    else best) none

/-- Go `(*http.ServeMux).match`: an exact match first, then the longest pattern ending
in `/` that is a prefix of the path. -/
def muxMatch (routes : List (GoString × Handler)) (path : GoString) : Option Handler :=
  match routes.find? (fun e => e.1 == path) with
  | some e => some e.2
  | none => (longestPrefixMatch routes path).map (fun e => e.2)

/-- Go `cleanPath` of `net/http`: the canonical form of a request path, which starts with
`/`, has no empty, `.` or `..` element, and keeps a trailing slash. -/
def cleanPath (p : GoString) : GoString :=
  if p = [] then ['/']
  else
    let p := if p.head? ≠ some '/' then '/' :: p else p
    let np := pathClean p
    if p.getLast? = some '/' ∧ np ≠ ['/'] then
      if p.length = np.length + 1 ∧ hasPrefix p np then p else np ++ ['/']
    else np

/-- Go `(*http.ServeMux).shouldRedirectRLocked`: the path is not registered and the path
followed by `/` is. -/
def shouldRedirect (routes : List (GoString × Handler)) (path : GoString) : Bool :=
  if routes.any (fun e => e.1 == path) then false
  else if path = [] then false
  else if routes.any (fun e => e.1 == path ++ ['/']) then path.getLast? != some '/'
  else false

/-- Go `(*http.ServeMux).ServeHTTP` for a request other than `CONNECT`, on a mux whose
patterns all start with `/` (none names a host): a path whose form with a slash added is
registered, and a path that is not in canonical form, are answered by the mux itself with
a redirect; otherwise the request goes to the matching handler, or gets 404. -/
def serveMux (routes : List (GoString × Handler)) : Handler := fun r =>
  let path := cleanPath r.Path
  if shouldRedirect routes path then [Event.muxRedirect (path ++ ['/'])]
  else if path ≠ r.Path then [Event.muxRedirect path]
  else
    match muxMatch routes r.Path with
    | some h => h r
    | none => [Event.notFound]

/-- Modelled from the spec: `wrapLogger` (not in `server.go`), the request-logging stage;
it logs and invokes the inner handler. -/
def wrapLogger (h : Handler) : Handler := fun r => Event.stage Stage.logging :: h r

/-- The stage `gziphandler.GzipHandler`: response compression around the inner handler. -/
def gzipHandler (h : Handler) : Handler := fun r => Event.stage Stage.compression :: h r

/-- Modelled from the spec: `wrapHeaders` (not in `server.go`), the security-header stage;
it sets a fixed header set and invokes the inner handler. -/
def wrapHeaders (h : Handler) : Handler := fun r => Event.stage Stage.headers :: h r

/-- Modelled from the spec: `wrapBasicAuth` (not in `server.go`). Requests with the
configured credential pass to the inner handler; requests with incorrect or absent
credentials get the authentication challenge and never reach the inner handler. -/
def wrapBasicAuth (h : Handler) (credential : GoString) : Handler := fun r =>
  if r.Credential = some credential then Event.stage Stage.basicAuth :: h r
  else [Event.stage Stage.basicAuth, Event.challenge]

/-- The handler `server.handleIndex`. -/
def handleIndex : Handler := fun _ => [Event.site SiteRoute.index]

/-- The handler `server.handleManifest`. -/
def handleManifest : Handler := fun _ => [Event.site SiteRoute.manifest]

/-- The handler `server.handleAuthToken`. -/
def handleAuthToken : Handler := fun _ => [Event.site SiteRoute.authToken]

/-- The handler `server.handleConfig`. -/
def handleConfig : Handler := fun _ => [Event.site SiteRoute.config]

/-- The handler returned by `server.generateHandleWS`. -/
def handleWS : Handler := fun _ => [Event.ws]

/-- Go `(*url.URL).String` for a URL whose path has been cleared and that has no scheme,
host, user or fragment: `?` and the raw query, when there is one. -/
def urlStringNoPath (rawQuery : GoString) : GoString :=
  if rawQuery = [] then [] else '?' :: rawQuery

/-! ## Query strings -/

/-- The table `upperhex` of `net/url`. -/
def upperhex (n : Nat) : Char := "0123456789ABCDEF".toList.getD n '0'

/-- Go `ishex` of `net/url`. -/
def ishex (c : Char) : Bool :=
  ('0' ≤ c ∧ c ≤ '9') ∨ ('a' ≤ c ∧ c ≤ 'f') ∨ ('A' ≤ c ∧ c ≤ 'F')

/-- Go `unhex` of `net/url`. -/
def unhex (c : Char) : Nat :=
  if '0' ≤ c ∧ c ≤ '9' then c.toNat - '0'.toNat
  else if 'a' ≤ c ∧ c ≤ 'f' then c.toNat - 'a'.toNat + 10
  else if 'A' ≤ c ∧ c ≤ 'F' then c.toNat - 'A'.toNat + 10
  else 0

/-- Go `shouldEscape(c, encodeQueryComponent)`: every byte but the letters, the digits and
`-`, `_`, `.`, `~` is escaped. -/
def shouldEscapeQuery (c : Char) : Bool :=
  !(c.isAlphanum || c == '-' || c == '_' || c == '.' || c == '~')

/-- The escape of one byte in `url.QueryEscape`. -/
def escapeByte (c : Char) : GoString :=
  if shouldEscapeQuery c then
    if c = ' ' then ['+'] else ['%', upperhex (c.toNat / 16), upperhex (c.toNat % 16)]
  else [c]

/-- Go `url.QueryEscape`. -/
def queryEscape (s : GoString) : GoString := s.flatMap escapeByte

/-- Go `url.QueryUnescape`: `none` for a `%` that two hexadecimal digits do not follow. -/
def queryUnescape : GoString → Option GoString
  | [] => some []
  | c :: rest =>
    if c = '%' then
      match rest with
      | a :: b :: rest2 =>
        if ishex a ∧ ishex b then
          (queryUnescape rest2).map (fun s => Char.ofNat (unhex a * 16 + unhex b) :: s)
        else none
      | _ => none
    else if c = '+' then (queryUnescape rest).map (fun s => ' ' :: s)
    else (queryUnescape rest).map (fun s => c :: s)

/-- Go `strings.Cut` on a one-byte separator: the parts before and after its first
occurrence, or the whole string and `""`. -/
def cut (sep : Char) (s : GoString) : GoString × GoString :=
  (s.takeWhile (fun c => c != sep), (s.dropWhile (fun c => c != sep)).drop 1)

/-- Go `strings.Split` on a one-byte separator. -/
def splitOn (sep : Char) : GoString → List GoString
  | [] => [[]]
  | c :: cs =>
    if c = sep then [] :: splitOn sep cs
    else
      match splitOn sep cs with
      | [] => [[c]]
      | s :: ss => (c :: s) :: ss

/-- One `key=value` setting of `url.ParseQuery`: `none` for a setting that is empty, holds
a semicolon or does not unescape, which `ParseQuery` skips. -/
def parseSetting (setting : GoString) : Option (GoString × GoString) :=
  if setting.contains ';' then none
  else if setting = [] then none
  else
    let (key, value) := cut '=' setting
    match queryUnescape key with
    | none => none
    | some key =>
      match queryUnescape value with
      | none => none
      | some value => some (key, value)

/-- The values of Go `url.ParseQuery`: the settings between the `&`, in order. -/
def parseQuery (query : GoString) : Values := (splitOn '&' query).filterMap parseSetting

/-- The order of Go strings. -/
def strLe : GoString → GoString → Bool
  | [], _ => true
  | _ :: _, [] => false
  | a :: as, b :: bs => if a < b then true else if a = b then strLe as bs else false

/-- Insertion of a pair before the first pair whose key is not smaller. -/
def insertByKey (p : GoString × GoString) : Values → Values
  | [] => [p]
  | q :: qs => if strLe p.1 q.1 then p :: q :: qs else q :: insertByKey p qs

/-- The pairs by sorted key, the values of one key in their order of appearance. -/
def sortByKey (v : Values) : Values := v.foldr insertByKey []

/-- Go `url.Values.Encode`: `key=value` settings joined by `&`, by sorted key, with keys
and values escaped. -/
def valuesEncode (v : Values) : GoString :=
  List.intercalate ['&']
    ((sortByKey v).map (fun kv => queryEscape kv.1 ++ ['='] ++ queryEscape kv.2))

/-- A string whose characters all stand for bytes. -/
def isBytes (s : GoString) : Prop := ∀ c ∈ s, c.toNat < 256

instance isBytesDecidable (s : GoString) : Decidable (isBytes s) := by
  unfold isBytes
  infer_instance

/-! ## `setupHandlers` -/

/-- The mux `siteMux` of `setupHandlers` (lines 217-227). -/
def siteMux (pathPrefix : GoString) : Handler :=
  serveMux
    [ (pathPrefix, handleIndex),
      (pathPrefix ++ "js/".toList, stripPrefix pathPrefix staticFileHandler),
      (pathPrefix ++ "favicon.ico".toList, stripPrefix pathPrefix staticFileHandler),
      (pathPrefix ++ "icon.svg".toList, stripPrefix pathPrefix staticFileHandler),
      (pathPrefix ++ "css/".toList, stripPrefix pathPrefix staticFileHandler),
      (pathPrefix ++ "icon_192.png".toList, stripPrefix pathPrefix staticFileHandler),
      (pathPrefix ++ "manifest.json".toList, handleManifest),
      (pathPrefix ++ "auth_token.js".toList, handleAuthToken),
      (pathPrefix ++ "config.js".toList, handleConfig) ]

/-- The value of the variable `siteHandler` after line 237. -/
def siteHandler (options : Options) (pathPrefix : GoString) : Handler :=
  let siteHandler := siteMux pathPrefix
  let siteHandler :=
    if options.EnableBasicAuth then wrapBasicAuth siteHandler options.Credential
    else siteHandler
  let withGz := gzipHandler (wrapHeaders siteHandler)
  wrapLogger withGz

/-- The closure registered on `wsMux` at `/` when an SSO URL is configured
(lines 245-252). -/
def ssoRootHandler (ssoUrl ssoTokenKeyName : GoString) (pathPrefix : GoString) : Handler :=
  fun r =>
    if r.Path = "/".toList ∧ r.Query.Get ssoTokenKeyName = [] then
      [Event.redirect r.Path ssoUrl 303]
    else siteMux pathPrefix r

/-- The closure registered on `wsMux` at `/sso-login/` (lines 253-266). `encode` stands
for `url.Values.Encode`, of which `valuesEncode` is the model. Clearing `u.Path` clears
`r.URL.Path`, since `u` is `r.URL`. -/
def ssoLoginHandler (encode : Values → GoString) (ssoTokenKeyName : GoString) : Handler :=
  fun r =>
    let queryValues := r.Query
    if queryValues.Get ssoTokenKeyName = [] then
      [Event.httpError ("Missing or empty ".toList ++ ssoTokenKeyName) 400]
    else
      let rawQuery := encode queryValues
      let r := { r with Path := [] }
      [Event.redirect r.Path (urlStringNoPath rawQuery) 303]

/-- The handler returned by `setupHandlers` (lines 239-274): the mux `wsMux`. `Run` passes
a `pathPrefix` that starts with `/`, so every pattern does. -/
def setupHandlers (encode : Values → GoString) (options : Options) (pathPrefix : GoString) :
    Handler :=
  let ssoUrl := options.SSOUrl
  let ssoTokenKeyName := options.TokenKeyName
  let routes :=
    if ssoUrl ≠ [] then
      [ ("/".toList, ssoRootHandler ssoUrl ssoTokenKeyName pathPrefix),
        ("/sso-login/".toList, ssoLoginHandler encode ssoTokenKeyName) ]
    else
      [ ("/".toList, siteHandler options pathPrefix) ]
  serveMux (routes ++ [(pathPrefix ++ "ws".toList, handleWS)])

/-! ## `http.Redirect` on a relative target -/

/-- The target that `http.Redirect(w, r, url, code)` writes to the `Location` header when
`url` has neither scheme nor host, with `oldpath = r.URL.Path`: a `url` that does not
start with `/` is taken relative to the directory of `oldpath`, and the path part is
cleaned, keeping the query and a trailing slash. -/
def relativeRedirectLocation (oldpath url : GoString) : GoString :=
  let oldpath := if oldpath = [] then ['/'] else oldpath
  let url := if url = [] ∨ url.head? ≠ some '/' then (pathSplit oldpath).1 ++ url else url
  let (url, query) := url.span (fun c => c != '?')
  let trailing := hasSuffix url ['/']
  let url := pathClean url
  let url := if trailing && !hasSuffix url ['/'] then url ++ ['/'] else url
  url ++ query

/-! ## Concrete configurations and requests -/

/-- Options with Basic Authentication enabled and an SSO URL configured. -/
def ssoBasicAuthOptions : Options :=
  { EnableBasicAuth := true, Credential := "user:pass".toList,
    SSOUrl := "https://sso.example/login".toList }

/-- Options with only an SSO URL configured. -/
def ssoOptions : Options := { SSOUrl := "https://sso.example/login".toList }

/-- A stand-in for `url.Values.Encode` that neither sorts nor escapes, for runs of `Run`,
which never calls the encoder. -/
def plainEncode (v : Values) : GoString :=
  List.intercalate ['&'] (v.map (fun kv => kv.1 ++ ['='] ++ kv.2))

/-- Options with Basic Authentication enabled and no SSO URL. -/
def basicAuthOptions : Options :=
  { EnableBasicAuth := true, Credential := "user:pass".toList }

/-- Options of random-path mode with the default length 8. -/
def randomUrlOptions : Options := { EnableRandomUrl := true, RandomUrlLength := 8 }

/-- A generator returning exactly `n` characters. -/
def constantGenerate (n : Nat) : GoString := List.replicate n 'a'

/-! ## Errors and the environment -/

/-- Go `error` values, as far as `server.go` tells them apart. -/
inductive GoError where
  /-- The sentinel `http.ErrServerClosed`. -/
  | ErrServerClosed
  /-- The sentinel `context.Canceled`. -/
  | Canceled
  /-- The sentinel `context.DeadlineExceeded`. -/
  | DeadlineExceeded
  /-- An error made by `errors.New` or by a library call. -/
  | new (msg : GoString)
  /-- The result of `errors.Wrapf(cause, msg)`. -/
  | wrap (cause : GoError) (msg : GoString)
  deriving DecidableEq, Repr

/-- A call that returns a value, returns an error, or panics. -/
inductive Outcome (α : Type) where
  | ok (a : α)
  | error (e : GoError)
  | panic (msg : GoString)

/-- A parsed certificate, as its encoded bytes. -/
abbrev Certificate := GoString

/-- The library and operating-system calls made by `server.go`. -/
structure Env where
  /-- The function `homedir.Expand`. -/
  expand : GoString → GoString
  /-- The function `ioutil.ReadFile`. -/
  readFile : GoString → Except GoError GoString
  /-- The embedded files, `bindata.Fs.ReadFile`. -/
  bindata : GoString → Except GoError GoString
  /-- The error, if any, of parsing an `html/template`. -/
  parseHTMLTemplate : GoString → Option GoError
  /-- The error, if any, of parsing a `text/template`. -/
  parseTextTemplate : GoString → Option GoError
  /-- The function `regexp.Compile`, giving the compiled pattern as its `MatchString`. -/
  regexpCompile : GoString → Except GoError (GoString → Bool)
  /-- The certificates `AppendCertsFromPEM` finds in PEM data. -/
  parseCerts : GoString → List Certificate
  /-- The error, if any, of `net.Listen("tcp", hostPort)`. -/
  listen : GoString → Option GoError
  /-- The error, if any, of `url.ParseRequestURI`. -/
  parseRequestURI : GoString → Option GoError
  /-- The error, if any, of `tls.LoadX509KeyPair`, called by `ServeTLS`. -/
  loadX509KeyPair : GoString → GoString → Option GoError

/-! ## `tlsConfig` and `setupHTTPServer` -/

/-- Go `tls.ClientAuthType`. -/
inductive ClientAuthType where
  | NoClientCert
  | RequestClientCert
  | RequireAnyClientCert
  | VerifyClientCertIfGiven
  | RequireAndVerifyClientCert
  deriving DecidableEq, Repr

/-- The fields of `tls.Config` that `tlsConfig` sets. A `CertPool` is the list of its
certificates. -/
structure TLSConfig where
  ClientCAs : List Certificate := []
  ClientAuth : ClientAuthType := ClientAuthType.NoClientCert
  deriving DecidableEq, Repr

/-- The fields of `http.Server` that `setupHTTPServer` sets. -/
structure HTTPServer where
  Handler : Handler
  TLSConfig : Option TLSConfig := none

/-- The method `tlsConfig` (lines 293-308). -/
def tlsConfig (env : Env) (options : Options) : Except GoError TLSConfig :=
  let caFile := env.expand options.TLSCACrtFile
  match env.readFile caFile with
  | Except.error _ =>
    Except.error (GoError.new ("could not open CA crt file ".toList ++ caFile))
  | Except.ok caCert =>
    let caCertPool := env.parseCerts caCert
    if caCertPool = [] then
      Except.error (GoError.new ("could not parse CA crt file data in ".toList ++ caFile))
    else
      Except.ok { ClientCAs := caCertPool, ClientAuth := ClientAuthType.RequireAndVerifyClientCert }

/-- The method `setupHTTPServer` (lines 277-291). -/
def setupHTTPServer (env : Env) (options : Options) (handler : Handler) :
    Except GoError HTTPServer :=
  let srv : HTTPServer := { Handler := handler }
  if options.EnableTLSClientAuth then
    match tlsConfig env options with
    | Except.error err =>
      Except.error (GoError.wrap err "failed to setup TLS configuration".toList)
    | Except.ok tlsConfig => Except.ok { srv with TLSConfig := some tlsConfig }
  else Except.ok srv

/-! ## `New` and the upgrader -/

/-- The fields of `websocket.Upgrader` that `New` sets, without the subprotocols. A nil
`CheckOrigin` is `none`. -/
structure Upgrader where
  ReadBufferSize : Nat
  WriteBufferSize : Nat
  CheckOrigin : Option (Request → Bool)

/-- The struct `Server`, without its factory; a template is kept as its source text. -/
structure Server where
  options : Options
  upgrader : Upgrader
  indexTemplate : GoString
  titleTemplate : GoString
  manifestTemplate : GoString

/-- Go `http.Header.Get` for the `Origin` header: its first value, or `""`. -/
def Request.originHeader (r : Request) : GoString := r.Origin.headD []

/-- The function `New` (lines 42-98). -/
def New (env : Env) (options : Options) : Outcome Server :=
  match env.bindata "static/index.html".toList with
  | Except.error _ => Outcome.panic "index not found".toList
  | Except.ok embeddedIndex =>
    let custom : Except GoError GoString :=
      if options.IndexFile ≠ [] then
        let path := env.expand options.IndexFile
        match env.readFile path with
        | Except.error err =>
          Except.error (GoError.wrap err
            ("failed to read custom index file at `".toList ++ path ++ "`".toList))
        | Except.ok data => Except.ok data
      else Except.ok embeddedIndex
    match custom with
    | Except.error err => Outcome.error err
    | Except.ok indexData =>
      match env.parseHTMLTemplate indexData with
      | some _ => Outcome.panic "index template parse failed".toList
      | none =>
        match env.bindata "static/manifest.json".toList with
        | Except.error _ => Outcome.panic "manifest not found".toList
        | Except.ok manifestData =>
          match env.parseHTMLTemplate manifestData with
          | some _ => Outcome.panic "manifest template parse failed".toList
          | none =>
            match env.parseTextTemplate options.TitleFormat with
            | some err =>
              Outcome.error (GoError.wrap err
                ("failed to parse window title format `".toList ++ options.TitleFormat
                  ++ "`".toList))
            | none =>
              let originChekcer : Except GoError (Option (Request → Bool)) :=
                if options.WSOrigin ≠ [] then
                  match env.regexpCompile options.WSOrigin with
                  | Except.error err =>
                    Except.error (GoError.wrap err
                      ("failed to compile regular expression of Websocket Origin: ".toList
                        ++ options.WSOrigin))
                  | Except.ok matcher => Except.ok (some (fun r => matcher r.originHeader))
                else Except.ok none
              match originChekcer with
              | Except.error err => Outcome.error err
              | Except.ok originChekcer =>
                Outcome.ok
                  { options := options,
                    upgrader :=
                      { ReadBufferSize := 1024, WriteBufferSize := 1024,
                        CheckOrigin := originChekcer },
                    indexTemplate := indexData,
                    titleTemplate := options.TitleFormat,
                    manifestTemplate := manifestData }

/-! ## The origin check of the upgrader -/

/-- The lower-case form of an ASCII upper-case letter; every other character is kept. -/
def asciiLower (c : Char) : Char := if 'A' ≤ c ∧ c ≤ 'Z' then c.toLower else c

/-- A string of ASCII characters, for which bytes and runes are the same. -/
def isASCII (s : GoString) : Prop := ∀ c ∈ s, c.toNat < 128

instance isASCIIDecidable (s : GoString) : Decidable (isASCII s) := by
  unfold isASCII
  infer_instance

/-- The function `equalASCIIFold` of gorilla/websocket: equality up to the case of ASCII
letters. -/
def equalASCIIFold : GoString → GoString → Bool
  | [], [] => true
  | s :: ss, t :: ts =>
    if s = t then equalASCIIFold ss ts
    else
      let sr := if 'A' ≤ s ∧ s ≤ 'Z' then s.toLower else s
      let tr := if 'A' ≤ t ∧ t ≤ 'Z' then t.toLower else t
      if sr = tr then equalASCIIFold ss ts else false
  | _, _ => false

/-- The function `checkSameOrigin` of gorilla/websocket, the check an `Upgrader` applies
when its `CheckOrigin` is nil: accept when there is no `Origin` header, else accept only
when the origin parses and its host equals the request's `Host`. `parseHost` stands for
`url.Parse` followed by `.Host`, with `none` for a parse error. -/
def checkSameOrigin (parseHost : GoString → Option GoString) (r : Request) : Bool :=
  match r.Origin with
  | [] => true
  | origin :: _ =>
    match parseHost origin with
    | none => false
    | some host => equalASCIIFold host r.Host

/-- The origin check `Upgrader.Upgrade` performs on a request. -/
def Upgrader.originAllowed (parseHost : GoString → Option GoString) (u : Upgrader)
    (r : Request) : Bool :=
  match u.CheckOrigin with
  | none => checkSameOrigin parseHost r
  | some checkOrigin => checkOrigin r

/-- The `Host` that `url.Parse` gives for the two origins of the claim,
`https://example.com` and `https://evil.com`; no other origin is looked up. -/
def claimOriginHost (origin : GoString) : Option GoString :=
  if origin = "https://example.com".toList then some "example.com".toList
  else if origin = "https://evil.com".toList then some "evil.com".toList
  else none

/-- An environment in which every file is readable and every input parses. -/
def permissiveEnv : Env where
  expand := fun p => p
  readFile := fun _ => Except.ok "data".toList
  bindata := fun _ => Except.ok "embedded".toList
  parseHTMLTemplate := fun _ => none
  parseTextTemplate := fun _ => none
  regexpCompile := fun pat => Except.ok (fun s => s == pat)
  parseCerts := fun data => [data]
  listen := fun _ => none
  parseRequestURI := fun _ => none
  loadX509KeyPair := fun _ _ => none

/-- An upgrade request from `https://example.com` to the host `example.com`. -/
def sameOriginRequest : Request :=
  { Path := "/ws".toList, Origin := ["https://example.com".toList],
    Host := "example.com".toList }

/-- An upgrade request from `https://evil.com` to the host `example.com`. -/
def crossOriginRequest : Request :=
  { Path := "/ws".toList, Origin := ["https://evil.com".toList], Host := "example.com".toList }

/-- Options with TLS client authentication against the CA file `ca.crt`. -/
def clientAuthOptions : Options :=
  { EnableTLS := true, EnableTLSClientAuth := true, TLSCACrtFile := "ca.crt".toList }

/-- An environment in which no file can be read. -/
def unreadableEnv : Env :=
  { permissiveEnv with readFile := fun _ => Except.error (GoError.new "no such file".toList) }

/-- The server `New permissiveEnv {}` returns. -/
def defaultServer : Server :=
  { options := {},
    upgrader := { ReadBufferSize := 1024, WriteBufferSize := 1024, CheckOrigin := none },
    indexTemplate := "embedded".toList,
    titleTemplate := [],
    manifestTemplate := "embedded".toList }

/-! ## `Run` -/

/-- Go `net.JoinHostPort`: a host with a colon is put in brackets. -/
def joinHostPort (host port : GoString) : GoString :=
  if host.contains ':' then
    "[".toList ++ host ++ "]:".toList ++ port
  else host ++ ":".toList ++ port

/-- Where the goroutine of `Run` itself stands, from the `select` of line 189 on. -/
inductive MainPc where
  /-- Blocked in the `select` of lines 189-199. -/
  | select
  /-- In the `cctx.Done()` arm, before `srv.Close()` (line 197). -/
  | closeServer
  /-- In the `cctx.Done()` arm, before `err = cctx.Err()` (line 198). -/
  | assignCtxErr
  /-- Before `counter.wait()` (lines 201-205). -/
  | drain
  /-- Before `return err` (line 207). -/
  | exit
  /-- After `return err`, with the value returned. -/
  | returned (value : Option GoError)
  deriving DecidableEq, Repr

/-- Where the serving goroutine (lines 165-179) stands. -/
inductive ServePc where
  /-- Before the call of `srv.ServeTLS` or `srv.Serve`. -/
  | start
  /-- Inside the accept loop of `srv.Serve`. -/
  | accepting
  /-- After `err = srv.Serve(...)`, before `if err != nil` (line 176). -/
  | send
  | done
  deriving DecidableEq, Repr

/-- Where the watching goroutine (lines 181-187) stands. -/
inductive WatchPc where
  | waiting
  | done
  deriving DecidableEq, Repr

/-- The state shared by the three goroutines of `Run` once the listener is bound. -/
structure RunState where
  /-- The variable `err` of `Run`, which the serving goroutine's closure captures. -/
  err : Option GoError := none
  /-- The buffer of the channel `srvErr`, of capacity 1. -/
  srvErr : Option GoError := none
  /-- The value of `cctx.Err()`: `none` until `cctx` is cancelled. -/
  cctxErr : Option GoError := none
  /-- Whether `opts.gracefullCtx` is done. -/
  gracefulDone : Bool := false
  /-- Whether `srv.Shutdown` or `srv.Close` has been called. -/
  inShutdown : Bool := false
  /-- Whether the listener made by `net.Listen` is still open. -/
  listenerBound : Bool := true
  /-- Whether the accept loop of `srv.Serve` has been entered. -/
  serveStarted : Bool := false
  /-- An error that the next `Accept` of the listener returns. -/
  acceptFailure : Option GoError := none
  /-- The number of open sessions the counter tracks. -/
  sessions : Nat := 0
  mainPc : MainPc := MainPc.select
  servePc : ServePc := ServePc.start
  watchPc : WatchPc := WatchPc.waiting
  deriving DecidableEq, Repr

/-- One scheduling decision: an event of the environment, or one step of a goroutine. -/
inductive Action where
  /-- The context given to `Run` is cancelled, with `context.Canceled` or
  `context.DeadlineExceeded`. -/
  | parentCancel (e : GoError)
  /-- The graceful context is cancelled. -/
  | gracefulCancel
  /-- The listener's `Accept` fails. -/
  | acceptFailure (e : GoError)
  /-- A session is registered with the counter. -/
  | sessionOpen
  /-- A session is removed from the counter. -/
  | sessionClose
  /-- The serving goroutine takes its next step. -/
  | serve
  /-- The watching goroutine takes the `gracefullCtx.Done()` arm. -/
  | watchGraceful
  /-- The watching goroutine takes the `cctx.Done()` arm. -/
  | watchCancelled
  /-- The `select` of line 189 takes the `srvErr` arm. -/
  | selectSrvErr
  /-- The `select` of line 189 takes the `cctx.Done()` arm. -/
  | selectDone
  /-- The goroutine of `Run` executes its next statement after the `select`. -/
  | main
  deriving DecidableEq, Repr

/-- The effect of `srv.Shutdown` and of `srv.Close` on the shared state: the server is marked
as shutting down and the listener tracked by a running `Serve` is closed. -/
def closeListeners (st : RunState) : RunState :=
  { st with
    inShutdown := true,
    listenerBound := if st.servePc = ServePc.accepting then false else st.listenerBound }

/-- The error, if any, with which `srv.ServeTLS` returns before serving (lines 166-172):
that of loading the key pair, when TLS is enabled. -/
def keyPairError (env : Env) (options : Options) : Option GoError :=
  if options.EnableTLS then
    let crtFile := env.expand options.TLSCrtFile
    let keyFile := env.expand options.TLSKeyFile
    env.loadX509KeyPair crtFile keyFile
  else none

/-- One step of the serving goroutine (lines 165-179). `ServeTLS` returns the error of
loading the key pair without touching the listener; `Serve` closes the listener when it
returns, and returns `http.ErrServerClosed` once the server is shutting down. -/
def serveStep (env : Env) (options : Options) (st : RunState) : Option RunState :=
  match st.servePc with
  | ServePc.start =>
    match keyPairError env options with
    | some e => some { st with err := some e, servePc := ServePc.send }
    | none =>
      if st.inShutdown then
        some { st with err := some GoError.ErrServerClosed, listenerBound := false,
                       servePc := ServePc.send }
      else some { st with serveStarted := true, servePc := ServePc.accepting }
  | ServePc.accepting =>
    if st.inShutdown then
      some { st with err := some GoError.ErrServerClosed, listenerBound := false,
                     servePc := ServePc.send }
    else
      match st.acceptFailure with
      | some e => some { st with err := some e, listenerBound := false, servePc := ServePc.send }
      | none => none
  | ServePc.send =>
    match st.err with
    | some e => some { st with srvErr := some e, servePc := ServePc.done }
    | none => some { st with servePc := ServePc.done }
  | ServePc.done => none

/-- One step of the goroutine of `Run` after its `select` (lines 196-207). The call
`counter.wait()` is modelled from the spec: it blocks until no session is open. -/
def mainStep (st : RunState) : Option RunState :=
  match st.mainPc with
  | MainPc.closeServer => some { closeListeners st with mainPc := MainPc.assignCtxErr }
  | MainPc.assignCtxErr => some { st with err := st.cctxErr, mainPc := MainPc.drain }
  | MainPc.drain => if st.sessions = 0 then some { st with mainPc := MainPc.exit } else none
  | MainPc.exit => some { st with mainPc := MainPc.returned st.err }
  | _ => none

/-- The effect of one action, or `none` when the action cannot happen in the state. -/
def step (env : Env) (options : Options) (a : Action) (st : RunState) : Option RunState :=
  match a with
  | Action.parentCancel e =>
    if st.cctxErr = none ∧ (e = GoError.Canceled ∨ e = GoError.DeadlineExceeded) then
      some { st with cctxErr := some e }
    else none
  | Action.gracefulCancel => some { st with gracefulDone := true }
  | Action.acceptFailure e =>
    if st.servePc = ServePc.accepting then some { st with acceptFailure := some e } else none
  | Action.sessionOpen =>
    if st.servePc = ServePc.accepting ∧ st.inShutdown = false then
      some { st with sessions := st.sessions + 1 }
    else none
  | Action.sessionClose =>
    if 0 < st.sessions then some { st with sessions := st.sessions - 1 } else none
  | Action.serve => serveStep env options st
  | Action.watchGraceful =>
    if st.watchPc = WatchPc.waiting ∧ st.gracefulDone = true then
      some { closeListeners st with watchPc := WatchPc.done }
    else none
  | Action.watchCancelled =>
    if st.watchPc = WatchPc.waiting ∧ st.cctxErr ≠ none then
      some { st with watchPc := WatchPc.done }
    else none
  | Action.selectSrvErr =>
    if st.mainPc = MainPc.select then
      match st.srvErr with
      | some e =>
        if e = GoError.ErrServerClosed then
          some { st with srvErr := none, err := none, mainPc := MainPc.drain }
        else
          some { st with srvErr := none, err := some e,
                         cctxErr := if st.cctxErr = none then some GoError.Canceled
                                    else st.cctxErr,
                         mainPc := MainPc.drain }
      | none => none
    else none
  | Action.selectDone =>
    if st.mainPc = MainPc.select ∧ st.cctxErr ≠ none then
      some { st with mainPc := MainPc.closeServer }
    else none
  | Action.main => mainStep st

/-- The state after a schedule, or `none` when one of its actions cannot happen. -/
def exec (env : Env) (options : Options) : List Action → RunState → Option RunState
  | [], st => some st
  | a :: schedule, st =>
    match step env options a st with
    | some st1 => exec env options schedule st1
    | none => none

/-- What a call of `Run` leaves behind when it returns. -/
structure Exit where
  /-- The value returned by `Run`. -/
  err : Option GoError
  /-- Whether the listener made by `net.Listen` is still open. -/
  listenerBound : Bool
  /-- Whether the accept loop was ever entered. -/
  serveStarted : Bool
  deriving DecidableEq, Repr

/-- The part of `Run` before the goroutines are started (lines 104-162): an early return
with its error and whether a listener is open, or the initial shared state. -/
def startRun (env : Env) (generate : Nat → GoString) (encode : Values → GoString)
    (options : Options) : Except Exit RunState :=
  let path := effectivePath generate options
  let handlers := setupHandlers encode options path
  match setupHTTPServer env options handlers with
  | Except.error err =>
    Except.error
      { err := some (GoError.wrap err "failed to setup an HTTP server".toList),
        listenerBound := false, serveStarted := false }
  | Except.ok _ =>
    let hostPort := joinHostPort options.Address options.Port
    match env.listen hostPort with
    | some err =>
      Except.error
        { err := some (GoError.wrap err
            ("failed to listen at `".toList ++ hostPort ++ "`".toList)),
          listenerBound := false, serveStarted := false }
    | none =>
      let ssoUrl := options.SSOUrl
      let ssoErr := if ssoUrl ≠ [] then env.parseRequestURI ssoUrl else none
      match ssoErr with
      | some err =>
        Except.error
          { err := some (GoError.wrap err ("Invalid SSO URL: ".toList ++ ssoUrl)),
            listenerBound := true, serveStarted := false }
      | none => Except.ok {}

/-- The method `Run` under a schedule of its goroutines and environment: how it exits, or
`none` when the schedule cannot happen or `Run` has not returned at its end. -/
def Run (env : Env) (generate : Nat → GoString) (encode : Values → GoString)
    (options : Options) (schedule : List Action) : Option Exit :=
  match startRun env generate encode options with
  | Except.error e => if schedule = [] then some e else none
  | Except.ok st0 =>
    match exec env options schedule st0 with
    | some st =>
      match st.mainPc with
      | MainPc.returned value =>
        some { err := value, listenerBound := st.listenerBound, serveStarted := st.serveStarted }
      | _ => none
    | none => none

/-- The serving goroutine has finished and `Run` is past its `select`, with `value` in the
variable `err` or already returned. -/
def settled (value : Option GoError) (st : RunState) : Prop :=
  st.servePc = ServePc.done ∧
    ((st.err = value ∧ (st.mainPc = MainPc.drain ∨ st.mainPc = MainPc.exit)) ∨
      st.mainPc = MainPc.returned value)

/-- An environment in which the custom index file is readable and is not a template. -/
def badIndexEnv : Env :=
  { permissiveEnv with
    readFile := fun _ => Except.ok "\x7b\x7b .x ".toList,
    parseHTMLTemplate := fun text =>
      if text = "\x7b\x7b .x ".toList then some (GoError.new "template: index: unclosed action".toList)
      else none }

/-- An environment in which `url.ParseRequestURI` rejects every input. -/
def badUriEnv : Env :=
  { permissiveEnv with
    parseRequestURI := fun _ => some (GoError.new "invalid URI for request".toList) }

/-- An environment in which the TLS key pair cannot be loaded. -/
def badKeyPairEnv : Env :=
  { permissiveEnv with
    loadX509KeyPair := fun _ _ => some (GoError.new "open server.crt: no such file".toList) }

/-- Options whose SSO URL has neither a scheme nor a leading slash. -/
def badSsoOptions : Options := { SSOUrl := "sso.example.com".toList }

/-- Options with TLS enabled. -/
def tlsOptions : Options :=
  { EnableTLS := true, TLSCrtFile := "server.crt".toList, TLSKeyFile := "server.key".toList }

/-- A hard cancellation after which the serving goroutine stores its result last. -/
def cancelSchedule : List Action :=
  [ Action.serve, Action.parentCancel GoError.Canceled, Action.selectDone, Action.main,
    Action.main, Action.serve, Action.main, Action.main ]

/-- A graceful shutdown. -/
def gracefulSchedule : List Action :=
  [ Action.serve, Action.gracefulCancel, Action.watchGraceful, Action.serve, Action.serve,
    Action.selectSrvErr, Action.main, Action.main ]

/-- A failure of the accept loop. -/
def acceptFailureSchedule : List Action :=
  [ Action.serve, Action.acceptFailure (GoError.new "accept: too many open files".toList),
    Action.serve, Action.serve, Action.selectSrvErr, Action.main, Action.main ]

/-- The serving goroutine fails at once and `Run` returns its error. -/
def serveFailureSchedule : List Action :=
  [ Action.serve, Action.serve, Action.selectSrvErr, Action.main, Action.main ]

/-- A hard cancellation in which the serving goroutine stores its result before `Run`
assigns `cctx.Err()`. -/
def cancelScheduleEarlyStore : List Action :=
  [ Action.serve, Action.parentCancel GoError.Canceled, Action.selectDone, Action.main,
    Action.serve, Action.main, Action.main, Action.main ]

/-! ## Theorems -/

theorem hasPrefix_slash_cons (s : GoString) : hasPrefix ('/' :: s) ['/'] = true := by
  simp [hasPrefix, List.isPrefixOf]

theorem hasSuffix_append_slash (s : GoString) : hasSuffix (s ++ ['/']) ['/'] = true := by
  simp [hasSuffix]

theorem hasPrefix_append_of_hasPrefix (s t : GoString) (h : hasPrefix s ['/'] = true) :
    hasPrefix (s ++ t) ['/'] = true := by
  cases s with
  | nil => simp [hasPrefix, List.isPrefixOf] at h
  | cons c s => simpa [hasPrefix, List.isPrefixOf] using h

/-- The two normalisation steps of lines 116-121 yield a path with both slashes. -/
theorem normalise_slashes (p : GoString) :
    let p1 := if !hasPrefix p ['/'] then ['/'] ++ p else p
    let p2 := if !hasSuffix p1 ['/'] then p1 ++ ['/'] else p1
    hasPrefix p2 ['/'] = true ∧ hasSuffix p2 ['/'] = true := by
  intro p1 p2
  have h1 : hasPrefix p1 ['/'] = true := by
    by_cases h : hasPrefix p ['/'] = true
    · simp [p1, h]
    · simp [p1, h, hasPrefix_slash_cons]
  by_cases h2 : hasSuffix p1 ['/'] = true
  · simp [p2, h2, h1]
  · have h2f : hasSuffix p1 ['/'] = false := by simpa using h2
    simp [p2, h2f, hasPrefix_append_of_hasPrefix _ _ h1, hasSuffix_append_slash]

/-- C1: for every configured base path and in both literal and random-path mode, the
effective path computed by `Run` starts with `/` and ends with `/`. -/
theorem effectivePath_slashes (generate : Nat → GoString) (options : Options) :
    hasPrefix (effectivePath generate options) "/".toList = true ∧
      hasSuffix (effectivePath generate options) "/".toList = true := by
  exact normalise_slashes _

/-! ### Redirect targets -/

theorem pathClean_examples :
    pathClean "/a/b/../c/./d//".toList = "/a/c/d".toList ∧
      pathClean "a/../..".toList = "..".toList ∧
      pathClean "/../a".toList = "/a".toList ∧
      pathClean "/".toList = "/".toList ∧
      pathClean [] = ".".toList ∧
      pathSplit "/sso-login/cb".toList = ("/sso-login/".toList, "cb".toList) := by
  decide

/-- Had the request path not been cleared, the relative target would resolve under the
callback path; with the path cleared it resolves to the root. -/
theorem relativeRedirectLocation_examples :
    relativeRedirectLocation [] "?token=abc".toList = "/?token=abc".toList ∧
      relativeRedirectLocation "/sso-login/cb".toList "?token=abc".toList =
        "/sso-login/?token=abc".toList := by
  decide

theorem relativeRedirectLocation_noPath (q : GoString) :
    relativeRedirectLocation [] (urlStringNoPath q) = '/' :: urlStringNoPath q := by
  unfold urlStringNoPath
  split_ifs with h
  · decide
  · simp [relativeRedirectLocation, pathSplit, List.span, List.span.loop, pathClean, hasPrefix,
      hasSuffix, splitSlash, cleanStep, List.intercalate, List.isSuffixOf]

/-! ### Query strings -/

/-- The encoding sorts by key, keeps the order of the values of one key and escapes; the
parser skips empty settings, settings with a semicolon and settings that do not unescape. -/
theorem query_examples :
    valuesEncode [("token".toList, "a b&c".toList), ("a".toList, "1".toList),
        ("token".toList, "z".toList)] = "a=1&token=a+b%26c&token=z".toList ∧
      parseQuery "a=1&token=a+b%26c&token=z&&x;y=1&%zz=3".toList =
        [("a".toList, "1".toList), ("token".toList, "a b&c".toList),
          ("token".toList, "z".toList)] ∧
      valuesEncode [] = [] ∧ parseQuery [] = [] := by
  decide

theorem hex_facts : ∀ n : Fin 16, ishex (upperhex n.val) = true ∧ unhex (upperhex n.val) = n.val := by
  decide

theorem upperhex_plain (n : Nat) :
    upperhex n ≠ '&' ∧ upperhex n ≠ '=' ∧ upperhex n ≠ ';' := by
  by_cases h : n < 16
  · have : ∀ m : Fin 16, upperhex m.val ≠ '&' ∧ upperhex m.val ≠ '=' ∧ upperhex m.val ≠ ';' := by
      decide
    exact this ⟨n, h⟩
  · have hd : upperhex n = '0' := by
      unfold upperhex
      rw [List.getD_eq_default]
      simpa using h
    rw [hd]
    decide

theorem escapeByte_plain (c : Char) :
    ∀ x ∈ escapeByte c, x ≠ '&' ∧ x ≠ '=' ∧ x ≠ ';' := by
  intro x hx
  unfold escapeByte at hx
  split_ifs at hx with h1 h2
  · simp only [List.mem_singleton] at hx
    subst hx
    decide
  · simp only [List.mem_cons, List.mem_singleton, List.not_mem_nil, or_false] at hx
    rcases hx with rfl | rfl | rfl
    · decide
    · exact upperhex_plain _
    · exact upperhex_plain _
  · simp only [List.mem_singleton] at hx
    subst hx
    refine ⟨?_, ?_, ?_⟩ <;> (intro hc; subst hc; revert h1; decide)

theorem queryEscape_plain (s : GoString) :
    ∀ x ∈ queryEscape s, x ≠ '&' ∧ x ≠ '=' ∧ x ≠ ';' := by
  intro x hx
  unfold queryEscape at hx
  rw [List.mem_flatMap] at hx
  obtain ⟨c, _, hc⟩ := hx
  exact escapeByte_plain c x hc

theorem queryUnescape_cons (c : Char) (rest : GoString) (h : c ≠ '%') :
    queryUnescape (c :: rest) =
      if c = '+' then (queryUnescape rest).map (fun s => ' ' :: s)
      else (queryUnescape rest).map (fun s => c :: s) := by
  rcases rest with _ | ⟨a, _ | ⟨b, rest2⟩⟩ <;> simp [queryUnescape, h]

theorem queryUnescape_escapeByte (c : Char) (rest : GoString) (hc : c.toNat < 256) :
    queryUnescape (escapeByte c ++ rest) = (queryUnescape rest).map (fun s => c :: s) := by
  unfold escapeByte
  split_ifs with h1 h2
  · subst h2
    show queryUnescape ('+' :: rest) = _
    rw [queryUnescape_cons _ _ (by decide)]
    simp
  · have hdiv : c.toNat / 16 < 16 := by omega
    have hmod : c.toNat % 16 < 16 := by omega
    have f1 := hex_facts ⟨c.toNat / 16, hdiv⟩
    have f2 := hex_facts ⟨c.toNat % 16, hmod⟩
    simp only at f1 f2
    have hval : c.toNat / 16 * 16 + c.toNat % 16 = c.toNat := by omega
    simp [queryUnescape, f1.1, f2.1, f1.2, f2.2, hval]
  · have hp : c ≠ '%' := by intro hc; subst hc; revert h1; decide
    have hq : c ≠ '+' := by intro hc; subst hc; revert h1; decide
    show queryUnescape (c :: rest) = _
    rw [queryUnescape_cons _ _ hp]
    simp [hq]

theorem queryUnescape_queryEscape (s : GoString) (hs : isBytes s) :
    queryUnescape (queryEscape s) = some s := by
  induction s with
  | nil => simp [queryEscape, queryUnescape]
  | cons c s ih =>
    have hc : c.toNat < 256 := hs c (List.mem_cons_self _ _)
    have hs2 : isBytes s := fun x hx => hs x (List.mem_cons_of_mem _ hx)
    have : queryEscape (c :: s) = escapeByte c ++ queryEscape s := by
      simp [queryEscape]
    rw [this, queryUnescape_escapeByte c _ hc, ih hs2]
    rfl

theorem cut_append (sep : Char) (a b : GoString) (ha : ∀ x ∈ a, x ≠ sep) :
    cut sep (a ++ sep :: b) = (a, b) := by
  induction a with
  | nil => simp [cut]
  | cons c a ih =>
    have hc : c ≠ sep := ha c (List.mem_cons_self _ _)
    have ih2 := ih (fun x hx => ha x (List.mem_cons_of_mem _ hx))
    simp only [cut, Prod.mk.injEq] at ih2 ⊢
    simp [hc, ih2.1, ih2.2]

theorem splitOn_plain (sep : Char) (a : GoString) (ha : ∀ x ∈ a, x ≠ sep) :
    splitOn sep a = [a] := by
  induction a with
  | nil => rfl
  | cons c a ih =>
    have hc : c ≠ sep := ha c (List.mem_cons_self _ _)
    simp [splitOn, hc, ih (fun x hx => ha x (List.mem_cons_of_mem _ hx))]

theorem splitOn_append (sep : Char) (a b : GoString) (ha : ∀ x ∈ a, x ≠ sep) :
    splitOn sep (a ++ sep :: b) = a :: splitOn sep b := by
  induction a with
  | nil => simp [splitOn]
  | cons c a ih =>
    have hc : c ≠ sep := ha c (List.mem_cons_self _ _)
    simp [splitOn, hc, ih (fun x hx => ha x (List.mem_cons_of_mem _ hx))]

theorem splitOn_intercalate (sep : Char) (segs : List GoString) (hne : segs ≠ [])
    (hs : ∀ seg ∈ segs, ∀ x ∈ seg, x ≠ sep) :
    splitOn sep (List.intercalate [sep] segs) = segs := by
  induction segs with
  | nil => exact absurd rfl hne
  | cons a segs ih =>
    cases segs with
    | nil =>
      simp only [List.intercalate, List.intersperse, List.flatten, List.append_nil]
      exact splitOn_plain sep a (hs a (List.mem_cons_self _ _))
    | cons b segs =>
      have : List.intercalate [sep] (a :: b :: segs) =
          a ++ sep :: List.intercalate [sep] (b :: segs) := by
        simp [List.intercalate, List.intersperse]
      rw [this, splitOn_append sep a _ (hs a (List.mem_cons_self _ _)),
        ih (by simp) (fun seg hseg => hs seg (List.mem_cons_of_mem _ hseg))]

/-- A setting written by `valuesEncode` parses back to its pair. -/
theorem parseSetting_escape (k v : GoString) (hk : isBytes k) (hv : isBytes v) :
    parseSetting (queryEscape k ++ ['='] ++ queryEscape v) = some (k, v) := by
  have hsemi : (queryEscape k ++ ['='] ++ queryEscape v).contains ';' = false := by
    rw [Bool.eq_false_iff]
    intro h
    simp only [List.contains_iff_exists_mem_beq, beq_iff_eq, List.mem_append,
      List.mem_singleton] at h
    obtain ⟨x, hx, rfl⟩ := h
    rcases hx with (hx | hx) | hx
    · exact (queryEscape_plain k _ hx).2.2 rfl
    · exact absurd hx (by decide)
    · exact (queryEscape_plain v _ hx).2.2 rfl
  have hcut : cut '=' (queryEscape k ++ ['='] ++ queryEscape v) =
      (queryEscape k, queryEscape v) := by
    have := cut_append '=' (queryEscape k) (queryEscape v)
      (fun x hx => (queryEscape_plain k x hx).2.1)
    simpa using this
  unfold parseSetting
  rw [hsemi]
  simp only [Bool.false_eq_true, if_false, hcut]
  rw [queryUnescape_queryEscape k hk, queryUnescape_queryEscape v hv]
  simp


theorem strLe_refl (a : GoString) : strLe a a = true := by
  induction a with
  | nil => rfl
  | cons c a ih => simp [strLe, ih]

theorem mem_insertByKey (p x : GoString × GoString) (l : Values) :
    x ∈ insertByKey p l ↔ x = p ∨ x ∈ l := by
  induction l with
  | nil => simp [insertByKey]
  | cons q qs ih =>
    unfold insertByKey
    split_ifs
    · simp
    · simp only [List.mem_cons, ih]
      tauto

theorem mem_sortByKey (x : GoString × GoString) (v : Values) :
    x ∈ sortByKey v ↔ x ∈ v := by
  induction v with
  | nil => simp [sortByKey]
  | cons p v ih =>
    have : sortByKey (p :: v) = insertByKey p (sortByKey v) := rfl
    rw [this, mem_insertByKey, ih]
    simp

theorem find_cons_key (key : GoString) (p : GoString × GoString) (l : Values) :
    (p :: l).find? (fun kv => kv.1 == key) =
      if p.1 = key then some p else l.find? (fun kv => kv.1 == key) := by
  by_cases hp : p.1 = key
  · have hb : (p.1 == key) = true := by simpa using hp
    simp [List.find?, hb, hp]
  · have hb : (p.1 == key) = false := by simpa using hp
    simp [List.find?, hb, hp]

theorem find_insertByKey (key : GoString) (p : GoString × GoString) (l : Values) :
    (insertByKey p l).find? (fun kv => kv.1 == key) =
      if p.1 = key then some p else l.find? (fun kv => kv.1 == key) := by
  induction l with
  | nil =>
    show ([p] : Values).find? (fun kv => kv.1 == key) = _
    rw [find_cons_key]
  | cons q qs ih =>
    unfold insertByKey
    by_cases hle : strLe p.1 q.1 = true
    · rw [if_pos hle, find_cons_key]
    · rw [if_neg hle, find_cons_key, ih, find_cons_key]
      by_cases hp : p.1 = key
      · have hq : ¬ q.1 = key := by
          intro hq
          apply hle
          rw [hp, ← hq]
          exact strLe_refl _
        simp [hp, hq]
      · simp [hp]

/-- Sorting by key keeps the first value of every key. -/
theorem Get_sortByKey (v : Values) (key : GoString) :
    Values.Get (sortByKey v) key = Values.Get v key := by
  have hfind : (sortByKey v).find? (fun kv => kv.1 == key) =
      v.find? (fun kv => kv.1 == key) := by
    induction v with
    | nil => rfl
    | cons p v ih =>
      have : sortByKey (p :: v) = insertByKey p (sortByKey v) := rfl
      rw [this, find_insertByKey, ih, find_cons_key]
  unfold Values.Get
  rw [hfind]

theorem filterMap_parseSetting (l : Values) (hl : ∀ kv ∈ l, isBytes kv.1 ∧ isBytes kv.2) :
    (l.map (fun kv => queryEscape kv.1 ++ ['='] ++ queryEscape kv.2)).filterMap parseSetting
      = l := by
  induction l with
  | nil => rfl
  | cons kv l ih =>
    have h1 := hl kv (List.mem_cons_self _ _)
    rw [List.map_cons, List.filterMap_cons, parseSetting_escape kv.1 kv.2 h1.1 h1.2]
    simp only
    rw [ih (fun x hx => hl x (List.mem_cons_of_mem _ hx))]

/-- Parsing the encoding of byte-string values gives the values back, by sorted key. -/
theorem parseQuery_valuesEncode (v : Values) (hv : ∀ kv ∈ v, isBytes kv.1 ∧ isBytes kv.2) :
    parseQuery (valuesEncode v) = sortByKey v := by
  have hs : ∀ kv ∈ sortByKey v, isBytes kv.1 ∧ isBytes kv.2 :=
    fun kv hkv => hv kv ((mem_sortByKey kv v).1 hkv)
  unfold parseQuery valuesEncode
  by_cases hne : sortByKey v = []
  · rw [hne]
    decide
  · rw [splitOn_intercalate '&' _ (by simpa using hne)]
    · exact filterMap_parseSetting _ hs
    · intro seg hseg x hx
      simp only [List.mem_map] at hseg
      obtain ⟨kv, _, rfl⟩ := hseg
      simp only [List.mem_append, List.mem_singleton] at hx
      rcases hx with (hx | hx) | hx
      · exact (queryEscape_plain kv.1 x hx).1
      · rw [hx]; decide
      · exact (queryEscape_plain kv.2 x hx).1

/-- Token round trip: in the query string written by `valuesEncode`, every key still has
the first value it had. -/
theorem Get_parseQuery_valuesEncode (v : Values) (key : GoString)
    (hv : ∀ kv ∈ v, isBytes kv.1 ∧ isBytes kv.2) :
    Values.Get (parseQuery (valuesEncode v)) key = Values.Get v key := by
  rw [parseQuery_valuesEncode v hv, Get_sortByKey]

/-! ### The mux -/

theorem hasPrefix_iff (s pre : GoString) : hasPrefix s pre = true ↔ ∃ t, s = pre ++ t := by
  unfold hasPrefix
  rw [List.isPrefixOf_iff_prefix]
  constructor
  · rintro ⟨t, ht⟩
    exact ⟨t, ht.symm⟩
  · rintro ⟨t, ht⟩
    exact ⟨t, ht.symm⟩

theorem hasSuffix_ws (p : GoString) : hasSuffix (p ++ "ws".toList) ['/'] = false := by
  simp [hasSuffix, List.isSuffixOf, List.isPrefixOf]

theorem longestPrefixMatch_foldl_mem (path : GoString) (l : List (GoString × Handler))
    (best : Option (GoString × Handler)) (res : GoString × Handler)
    (h : l.foldl (fun best e =>
      if hasSuffix e.1 ['/'] && hasPrefix path e.1 then
        match best with
        | some b => if b.1.length < e.1.length then some e else some b
        | none => some e
      else best) best = some res) :
    best = some res ∨ res ∈ l := by
  induction l generalizing best with
  | nil => left; simpa using h
  | cons e l ih =>
    rw [List.foldl_cons] at h
    rcases ih _ h with h1 | h1
    · split_ifs at h1 with hc
      · cases best with
        | none =>
          simp only [Option.some.injEq] at h1
          right; simp [h1]
        | some b =>
          simp only at h1
          split_ifs at h1
          · simp only [Option.some.injEq] at h1
            right; simp [h1]
          · left; exact h1
      · left; exact h1
    · right; exact List.mem_cons_of_mem _ h1

theorem muxMatch_mem (routes : List (GoString × Handler)) (path : GoString) (h : Handler)
    (hm : muxMatch routes path = some h) : ∃ e ∈ routes, e.2 = h := by
  unfold muxMatch at hm
  split at hm
  · rename_i e he
    exact ⟨e, List.mem_of_find?_eq_some he, by simpa using hm⟩
  · unfold longestPrefixMatch at hm
    rw [Option.map_eq_some'] at hm
    obtain ⟨e, he, rfl⟩ := hm
    rcases longestPrefixMatch_foldl_mem path routes none e he with h1 | h1
    · simp at h1
    · exact ⟨e, h1, rfl⟩

/-- What holds of a 404, of the mux's own redirects and of every registered handler holds
of the mux. -/
theorem serveMux_cases (P : List Event → Prop) (routes : List (GoString × Handler))
    (r : Request) (h404 : P [Event.notFound])
    (hred : ∀ t, (t = cleanPath r.Path ∨ t = cleanPath r.Path ++ ['/']) →
      P [Event.muxRedirect t])
    (hall : ∀ e ∈ routes, P (e.2 r)) :
    P (serveMux routes r) := by
  unfold serveMux
  simp only []
  split_ifs
  · exact hred _ (Or.inr rfl)
  · exact hred _ (Or.inl rfl)
  · split
    · rename_i h hm
      obtain ⟨e, he, rfl⟩ := muxMatch_mem routes r.Path h hm
      exact hall e he
    · exact h404

/-- A path in canonical form, for which the mux has no redirect of its own, is dispatched
by `muxMatch`. -/
theorem serveMux_canonical (routes : List (GoString × Handler)) (r : Request)
    (hcanon : cleanPath r.Path = r.Path) (hno : shouldRedirect routes r.Path = false) :
    serveMux routes r =
      match muxMatch routes r.Path with
      | some h => h r
      | none => [Event.notFound] := by
  unfold serveMux
  simp [hcanon, hno]

/-- The site mux only runs site handlers, answers 404, or redirects by itself to the
request's own path. -/
theorem siteMux_events (pathPrefix : GoString) (r : Request) :
    ∀ ev ∈ siteMux pathPrefix r,
      ev = Event.notFound ∨ ev = Event.muxRedirect (cleanPath r.Path) ∨
        ev = Event.muxRedirect (cleanPath r.Path ++ ['/']) ∨ ∃ route, ev = Event.site route := by
  unfold siteMux
  apply serveMux_cases (fun t => ∀ ev ∈ t,
    ev = Event.notFound ∨ ev = Event.muxRedirect (cleanPath r.Path) ∨
      ev = Event.muxRedirect (cleanPath r.Path ++ ['/']) ∨ ∃ route, ev = Event.site route)
  · simp
  · intro t ht ev hev
    simp only [List.mem_singleton] at hev
    subst hev
    rcases ht with rfl | rfl
    · exact Or.inr (Or.inl rfl)
    · exact Or.inr (Or.inr (Or.inl rfl))
  · intro e he
    simp only [List.mem_cons, List.mem_singleton, List.not_mem_nil, or_false] at he
    rcases he with rfl | rfl | rfl | rfl | rfl | rfl | rfl | rfl | rfl <;>
      simp [handleIndex, handleManifest, handleAuthToken, handleConfig, stripPrefix,
        staticFileHandler] <;>
      split_ifs <;> simp

theorem siteMux_no_stage (pathPrefix : GoString) (r : Request) (s : Stage) :
    Event.stage s ∉ siteMux pathPrefix r := by
  intro hmem
  rcases siteMux_events pathPrefix r _ hmem with h | h | h | ⟨_, h⟩ <;> cases h

theorem siteMux_no_redirect (pathPrefix : GoString) (r : Request) (p url : GoString)
    (code : Nat) : Event.redirect p url code ∉ siteMux pathPrefix r := by
  intro hmem
  rcases siteMux_events pathPrefix r _ hmem with h | h | h | ⟨_, h⟩ <;> cases h

theorem pathClean_rooted (p : GoString) (h : hasPrefix p ['/'] = true) :
    hasPrefix (pathClean p) ['/'] = true := by
  have hne : p ≠ [] := by
    intro hp
    rw [hp] at h
    simp [hasPrefix, List.isPrefixOf] at h
  unfold pathClean
  simp only [hne, if_false, h, if_true]
  simp [hasPrefix, List.isPrefixOf]

/-- The canonical form of a path starts with `/`. -/
theorem cleanPath_rooted (p : GoString) : hasPrefix (cleanPath p) ['/'] = true := by
  unfold cleanPath
  by_cases hp : p = []
  · simp [hp, hasPrefix, List.isPrefixOf]
  · simp only [hp, if_false]
    have hq0 : hasPrefix (if p.head? ≠ some '/' then '/' :: p else p) ['/'] = true := by
      split_ifs with hh
      · exact hasPrefix_slash_cons p
      · cases p with
        | nil => exact absurd rfl hp
        | cons c p =>
          simp only [List.head?_cons, ne_eq, Option.some.injEq, not_not] at hh
          subst hh
          exact hasPrefix_slash_cons p
    generalize (if p.head? ≠ some '/' then '/' :: p else p) = q at hq0 ⊢
    have hq := hq0
    have hnp := pathClean_rooted _ hq
    split_ifs
    · exact hq
    · exact hasPrefix_append_of_hasPrefix _ _ hnp
    · exact hnp

/-- The canonical form of some paths. -/
theorem cleanPath_examples :
    cleanPath [] = "/".toList ∧ cleanPath "a".toList = "/a".toList ∧
      cleanPath "/sso-login//cb".toList = "/sso-login/cb".toList ∧
      cleanPath "/sso-login/../config.js".toList = "/config.js".toList ∧
      cleanPath "/a/b/".toList = "/a/b/".toList ∧
      cleanPath "/a/./b/".toList = "/a/b/".toList := by
  decide

/-- The muxes answer by themselves a path whose form with a slash added is registered, and
a path that is not in canonical form; no closure of `setupHandlers` runs then. -/
theorem serveMux_redirect_examples :
    setupHandlers valuesEncode {} "/foo/".toList { Path := "/foo".toList } =
        [Event.stage Stage.logging, Event.stage Stage.compression, Event.stage Stage.headers,
          Event.muxRedirect "/foo/".toList] ∧
      setupHandlers valuesEncode {} "/".toList { Path := "//config.js".toList } =
        [Event.muxRedirect "/config.js".toList] ∧
      setupHandlers valuesEncode ssoOptions "/".toList
          { Path := "/sso-login/../config.js".toList } =
        [Event.muxRedirect "/config.js".toList] ∧
      setupHandlers valuesEncode ssoOptions "/".toList { Path := "/sso-login//cb".toList } =
        [Event.muxRedirect "/sso-login/cb".toList] ∧
      setupHandlers valuesEncode ssoOptions "/".toList { Path := "/sso-login".toList } =
        [Event.muxRedirect "/sso-login/".toList] := by
  decide

/-! ### Dispatch of `wsMux` -/

theorem append_ws_ne_append_slash (p q : GoString) : p ++ ['w', 's'] ≠ q ++ ['/'] := by
  intro h
  have h2 := congrArg List.getLast? h
  simp at h2

theorem cleanPath_root : cleanPath ['/'] = ['/'] := by decide

/-- With an SSO URL, the root path is served by the SSO gate. -/
theorem setupHandlers_sso_root (encode : Values → GoString) (options : Options)
    (pathPrefix : GoString) (r : Request) (hsso : options.SSOUrl ≠ [])
    (hpath : r.Path = "/".toList) :
    setupHandlers encode options pathPrefix r =
      ssoRootHandler options.SSOUrl options.TokenKeyName pathPrefix r := by
  have hpath2 : r.Path = ['/'] := hpath
  unfold setupHandlers
  simp only [hsso, ne_eq, not_false_eq_true, if_true]
  rw [serveMux_canonical _ _ (by rw [hpath2]; exact cleanPath_root)
    (by simp [shouldRedirect, hpath2])]
  simp [muxMatch, hpath2]

/-- With an SSO URL, paths in canonical form under `/sso-login/` other than the WebSocket
endpoint are served by the callback closure. -/
theorem setupHandlers_sso_login (encode : Values → GoString) (options : Options)
    (pathPrefix : GoString) (r : Request) (hsso : options.SSOUrl ≠ [])
    (hpath : hasPrefix r.Path "/sso-login/".toList = true)
    (hcanon : cleanPath r.Path = r.Path)
    (hws : r.Path ≠ pathPrefix ++ "ws".toList) :
    setupHandlers encode options pathPrefix r =
      ssoLoginHandler encode options.TokenKeyName r := by
  obtain ⟨t, ht⟩ := (hasPrefix_iff _ _).1 hpath
  have hws2 : ¬ (pathPrefix ++ ['w', 's'] = r.Path) := fun h => hws (by simpa using h.symm)
  have hsuf := hasSuffix_ws pathPrefix
  simp only [String.toList] at hsuf ht
  have hslash : ∀ q : GoString, (pathPrefix ++ ['w', 's'] == q ++ ['/']) = false := by
    intro q
    simpa using append_ws_ne_append_slash pathPrefix q
  unfold setupHandlers
  simp only [hsso, ne_eq, not_false_eq_true, if_true]
  cases t with
  | nil =>
    rw [serveMux_canonical _ _ hcanon (by simp [shouldRedirect, ht])]
    simp [muxMatch, ht]
  | cons c t =>
    rw [ht] at hws2
    simp only [List.cons_append, List.nil_append] at hws2
    have hbeq : (pathPrefix ++ ['w', 's'] ==
        '/' :: 's' :: 's' :: 'o' :: '-' :: 'l' :: 'o' :: 'g' :: 'i' :: 'n' :: '/' :: c :: t)
        = false := by simpa using hws2
    have hs := hslash ('/' :: 's' :: 's' :: 'o' :: '-' :: 'l' :: 'o' :: 'g' :: 'i' :: 'n' ::
      '/' :: c :: t)
    simp only [List.cons_append] at hs
    rw [serveMux_canonical _ _ hcanon (by simp [shouldRedirect, ht, hbeq, hs])]
    simp [muxMatch, ht, hbeq, longestPrefixMatch, hsuf,
      hasSuffix, hasPrefix, List.isSuffixOf, List.isPrefixOf, List.find?]

/-- Without an SSO URL, every path in canonical form other than the WebSocket endpoint is
served by the wrapped site handler. -/
theorem setupHandlers_noSso (encode : Values → GoString) (options : Options)
    (pathPrefix : GoString) (r : Request) (hsso : options.SSOUrl = [])
    (hcanon : cleanPath r.Path = r.Path)
    (hws : r.Path ≠ pathPrefix ++ "ws".toList) :
    setupHandlers encode options pathPrefix r = siteHandler options pathPrefix r := by
  have hws2 : ¬ (pathPrefix ++ ['w', 's'] = r.Path) := fun h => hws (by simpa using h.symm)
  have hsuf := hasSuffix_ws pathPrefix
  simp only [String.toList] at hsuf
  have hslash : ∀ q : GoString, (pathPrefix ++ ['w', 's'] == q ++ ['/']) = false := by
    intro q
    simpa using append_ws_ne_append_slash pathPrefix q
  have hbeq : (pathPrefix ++ ['w', 's'] == r.Path) = false := by simpa using hws2
  have hhead : hasPrefix r.Path ['/'] = true := by
    rw [← hcanon]
    exact cleanPath_rooted r.Path
  obtain ⟨t, ht⟩ := (hasPrefix_iff _ _).1 hhead
  unfold setupHandlers
  simp only [hsso, ne_eq, not_true_eq_false, if_false]
  cases t with
  | nil =>
    rw [serveMux_canonical _ _ hcanon (by simp [shouldRedirect, ht])]
    simp [muxMatch, ht]
  | cons c t =>
    rw [ht] at hbeq
    simp only [List.cons_append, List.nil_append] at hbeq
    have hs := hslash ('/' :: c :: t)
    simp only [List.cons_append] at hs
    rw [serveMux_canonical _ _ hcanon (by simp [shouldRedirect, ht, hbeq, hs])]
    simp [muxMatch, ht, hbeq, longestPrefixMatch, hsuf,
      hasSuffix, hasPrefix, List.isSuffixOf, List.isPrefixOf, List.find?]

theorem Values_Get_of_absent (v : Values) (key : GoString) (h : ∀ kv ∈ v, kv.1 ≠ key) :
    v.Get key = [] := by
  unfold Values.Get
  have : v.find? (fun kv => kv.1 == key) = none := by
    rw [List.find?_eq_none]
    intro kv hkv
    simpa using h kv hkv
  rw [this]

/-- The trace of the handler built on lines 229-237: logging, compression and security
headers, then Basic Authentication when it is enabled, then the challenge for wrong or
absent credentials and the site mux otherwise. The wrappers are modelled from the spec. -/
theorem siteHandler_trace (options : Options) (pathPrefix : GoString) (r : Request) :
    siteHandler options pathPrefix r =
      ([Stage.logging, Stage.compression, Stage.headers] ++
          (if options.EnableBasicAuth then [Stage.basicAuth] else [])).map Event.stage ++
        (if options.EnableBasicAuth = true ∧ r.Credential ≠ some options.Credential then
          [Event.challenge]
        else siteMux pathPrefix r) := by
  unfold siteHandler wrapLogger gzipHandler wrapHeaders wrapBasicAuth
  by_cases hb : options.EnableBasicAuth = true
  · by_cases hc : r.Credential = some options.Credential
    · simp [hb, hc]
    · simp [hb, hc]
  · simp [hb]

/-- The wrapped site handler never calls `http.Redirect`, and the only redirects of its mux
are to the request's own path. -/
theorem siteHandler_redirects (options : Options) (pathPrefix : GoString) (r : Request) :
    (∀ p url code, Event.redirect p url code ∉ siteHandler options pathPrefix r) ∧
      ∀ t, Event.muxRedirect t ∈ siteHandler options pathPrefix r →
        t = cleanPath r.Path ∨ t = cleanPath r.Path ++ ['/'] := by
  have hmux : ∀ t, Event.muxRedirect t ∈ siteMux pathPrefix r →
      t = cleanPath r.Path ∨ t = cleanPath r.Path ++ ['/'] := by
    intro t hmem
    rcases siteMux_events pathPrefix r _ hmem with h | h | h | ⟨_, h⟩
    · cases h
    · injection h with h; exact Or.inl h
    · injection h with h; exact Or.inr h
    · cases h
  rw [siteHandler_trace]
  constructor
  · intro p url code
    have := siteMux_no_redirect pathPrefix r p url code
    split_ifs <;> simp [this]
  · intro t
    split_ifs <;> simp <;> exact hmux t

/-- With an SSO URL configured, no request ever passes a wrapping stage: the wrapped
handler of lines 229-237 is not registered on `wsMux`. -/
theorem setupHandlers_sso_no_stage (encode : Values → GoString) (options : Options)
    (pathPrefix : GoString) (r : Request) (hsso : options.SSOUrl ≠ []) (s : Stage) :
    Event.stage s ∉ setupHandlers encode options pathPrefix r := by
  have hmux := siteMux_no_stage pathPrefix r s
  unfold setupHandlers
  simp only [hsso, ne_eq, not_false_eq_true, if_true]
  apply serveMux_cases (fun t => Event.stage s ∉ t)
  · simp
  · intro t _
    simp
  · intro e he
    simp only [List.cons_append, List.nil_append, List.mem_cons, List.mem_singleton,
      List.not_mem_nil, or_false] at he
    rcases he with rfl | rfl | rfl
    · simp only [ssoRootHandler]
      split_ifs
      · simp
      · exact hmux
    · simp only [ssoLoginHandler]
      split_ifs <;> simp
    · simp [handleWS]

/-! ### The claims on `setupHandlers` -/

/-- C2 (defect): with Basic Authentication enabled and an SSO URL configured, a request
without credentials for `/config.js` reaches the site route and no Basic-Auth stage
runs; the same request without an SSO URL is stopped by the challenge. -/
theorem sso_site_route_skips_basicAuth (encode : Values → GoString) :
    ssoBasicAuthOptions.EnableBasicAuth = true ∧
      setupHandlers encode ssoBasicAuthOptions "/".toList { Path := "/config.js".toList } =
        [Event.site SiteRoute.config] ∧
      setupHandlers encode { ssoBasicAuthOptions with SSOUrl := [] } "/".toList
          { Path := "/config.js".toList } =
        [Event.stage Stage.logging, Event.stage Stage.compression, Event.stage Stage.headers,
          Event.stage Stage.basicAuth, Event.challenge] := by
  refine ⟨rfl, ?_, ?_⟩
  · rfl
  · rfl

/-- C6: with an SSO URL configured, a request to `/` whose query has no token parameter is
answered by a redirect (303) to the SSO URL and nothing else happens. Without an SSO URL
no closure of `setupHandlers` calls `http.Redirect`, and the only redirects are those of the
muxes themselves, to the request's own path in canonical form or with a slash added: no
request is redirected to an SSO URL. -/
theorem sso_root_redirect (encode : Values → GoString) (options : Options)
    (pathPrefix : GoString) (r : Request) :
    (options.SSOUrl ≠ [] → r.Path = "/".toList →
        (∀ kv ∈ r.Query, kv.1 ≠ options.TokenKeyName) →
        setupHandlers encode options pathPrefix r =
          [Event.redirect "/".toList options.SSOUrl 303]) ∧
      (options.SSOUrl = [] →
        (∀ p url code, Event.redirect p url code ∉ setupHandlers encode options pathPrefix r) ∧
          ∀ t, Event.muxRedirect t ∈ setupHandlers encode options pathPrefix r →
            t = cleanPath r.Path ∨ t = cleanPath r.Path ++ ['/']) := by
  constructor
  · intro hsso hpath habs
    rw [setupHandlers_sso_root encode options pathPrefix r hsso hpath]
    simp [ssoRootHandler, hpath, Values_Get_of_absent _ _ habs]
  · intro hsso
    unfold setupHandlers
    simp only [hsso, ne_eq, not_true_eq_false, if_false]
    apply serveMux_cases (fun t =>
      (∀ p url code, Event.redirect p url code ∉ t) ∧
        ∀ u, Event.muxRedirect u ∈ t → u = cleanPath r.Path ∨ u = cleanPath r.Path ++ ['/'])
    · simp
    · intro t ht
      refine ⟨by simp, ?_⟩
      intro u hu
      simp only [List.mem_singleton, Event.muxRedirect.injEq] at hu
      rw [hu]
      exact ht
    · intro e he
      simp only [List.cons_append, List.nil_append, List.mem_cons, List.mem_singleton,
        List.not_mem_nil, or_false] at he
      rcases he with rfl | rfl
      · exact siteHandler_redirects options pathPrefix r
      · simp [handleWS]

/-- Witness of C6 at the root request without query, with and without an SSO URL. -/
theorem sso_root_redirect_witness :
    setupHandlers valuesEncode ssoOptions "/".toList { Path := "/".toList } =
        [Event.redirect "/".toList ssoOptions.SSOUrl 303] ∧
      Event.redirect "/".toList ssoOptions.SSOUrl 303 ∉
        setupHandlers valuesEncode {} "/".toList { Path := "/".toList } :=
  ⟨(sso_root_redirect valuesEncode ssoOptions "/".toList { Path := "/".toList }).1
      (by decide) rfl (by simp),
    ((sso_root_redirect valuesEncode {} "/".toList { Path := "/".toList }).2 rfl).1 _ _ _⟩

/-- C7 (defect): with an SSO URL configured, the handler built on lines 229-237 is not the
one that serves site traffic. A request for `/config.js` reaches the site route without
logging, compression or security headers, although the built handler would run all three;
without an SSO URL the same request passes the three stages in order. This is the defect
of C2: line 251 calls `siteMux`, not `siteHandler`. -/
theorem sso_site_route_skips_wrapping :
    setupHandlers valuesEncode ssoOptions "/".toList { Path := "/config.js".toList } =
        [Event.site SiteRoute.config] ∧
      siteHandler ssoOptions "/".toList { Path := "/config.js".toList } =
        [Event.stage Stage.logging, Event.stage Stage.compression, Event.stage Stage.headers,
          Event.site SiteRoute.config] ∧
      setupHandlers valuesEncode {} "/".toList { Path := "/config.js".toList } =
        [Event.stage Stage.logging, Event.stage Stage.compression, Event.stage Stage.headers,
          Event.site SiteRoute.config] := by
  decide

/-- C5 as stated fails: on `/sso-login/?token=` the token parameter is present (with an
empty value), yet the answer is 400 and not a redirect. -/
theorem sso_login_empty_token_rejected :
    parseQuery "token=".toList = [("token".toList, [])] ∧
      setupHandlers valuesEncode ssoOptions "/".toList
          { Path := "/sso-login/".toList, Query := parseQuery "token=".toList } =
        [Event.httpError "Missing or empty token".toList 400] := by
  decide

/-- C5 (amended): with an SSO URL configured and a base path starting with `/`, a request
whose path is in canonical form under `/sso-login/` and is not the WebSocket endpoint gets
400 and no redirect when the token parameter is missing or empty. Otherwise it gets one
redirect (303), issued on the request with its path cleared, to `?` and the encoding of the
request's query values; that target resolves to the server root `/` followed by the query
string, and in that query string the token parameter has the value it had in the
request. -/
theorem sso_login_callback (options : Options) (pathPrefix : GoString) (r : Request)
    (hsso : options.SSOUrl ≠ [])
    (hpre : hasPrefix pathPrefix "/".toList = true)
    (hpath : hasPrefix r.Path "/sso-login/".toList = true)
    (hcanon : cleanPath r.Path = r.Path)
    (hws : r.Path ≠ pathPrefix ++ "ws".toList)
    (hbytes : ∀ kv ∈ r.Query, isBytes kv.1 ∧ isBytes kv.2) :
    (r.Query.Get options.TokenKeyName = [] →
        setupHandlers valuesEncode options pathPrefix r =
          [Event.httpError ("Missing or empty ".toList ++ options.TokenKeyName) 400]) ∧
      (r.Query.Get options.TokenKeyName ≠ [] →
        setupHandlers valuesEncode options pathPrefix r =
            [Event.redirect [] ('?' :: valuesEncode r.Query) 303] ∧
          relativeRedirectLocation [] ('?' :: valuesEncode r.Query) =
            '/' :: '?' :: valuesEncode r.Query ∧
          (parseQuery (valuesEncode r.Query)).Get options.TokenKeyName =
            r.Query.Get options.TokenKeyName) := by
  have _ := hpre
  rw [setupHandlers_sso_login valuesEncode options pathPrefix r hsso hpath hcanon hws]
  constructor
  · intro h
    simp [ssoLoginHandler, h]
  · intro h
    have hround := Get_parseQuery_valuesEncode r.Query options.TokenKeyName hbytes
    have hne : valuesEncode r.Query ≠ [] := by
      intro hempty
      rw [hempty] at hround
      exact h hround.symm
    have hloc := relativeRedirectLocation_noPath (valuesEncode r.Query)
    simp only [urlStringNoPath, hne, if_false] at hloc
    exact ⟨by simp [ssoLoginHandler, h, urlStringNoPath, hne], hloc, hround⟩

/-- Witness of C5 (amended): `/sso-login/cb?token=a+b&next=%2F` is redirected to
`/?next=%2F&token=a+b`, in which `token` is still `a b`. -/
theorem sso_login_callback_witness :
    setupHandlers valuesEncode ssoOptions "/".toList
        { Path := "/sso-login/cb".toList, Query := parseQuery "token=a+b&next=%2F".toList } =
      [Event.redirect [] "?next=%2F&token=a+b".toList 303] ∧
    relativeRedirectLocation [] "?next=%2F&token=a+b".toList = "/?next=%2F&token=a+b".toList ∧
    (parseQuery "next=%2F&token=a+b".toList).Get "token".toList = "a b".toList :=
  (sso_login_callback ssoOptions "/".toList
    { Path := "/sso-login/cb".toList, Query := parseQuery "token=a+b&next=%2F".toList }
    (by decide) (by decide) (by decide) (by decide) (by decide)
    (by decide)).2 (by decide)

/-- C8 as stated fails: with length 8 and a generator returning exactly 8 characters, the
effective path has 10 characters. -/
theorem effectivePath_random_length_ne :
    (∀ n, (constantGenerate n).length = n) ∧
      randomUrlOptions.RandomUrlLength = 8 ∧
      (effectivePath constantGenerate randomUrlOptions).length = 10 := by
  refine ⟨fun n => by simp [constantGenerate], rfl, by decide⟩

/-- C8 (amended): in random-path mode the effective path is `/`, the generated string and
`/`; with a generator returning exactly `n` characters its length is `n + 2`. -/
theorem effectivePath_random (generate : Nat → GoString) (options : Options)
    (hrand : options.EnableRandomUrl = true)
    (hgen : (generate options.RandomUrlLength).length = options.RandomUrlLength) :
    effectivePath generate options = '/' :: generate options.RandomUrlLength ++ ['/'] ∧
      (effectivePath generate options).length = options.RandomUrlLength + 2 := by
  have h : effectivePath generate options = '/' :: generate options.RandomUrlLength ++ ['/'] := by
    have hs : hasSuffix ('/' :: generate options.RandomUrlLength ++ ['/']) ['/'] = true :=
      hasSuffix_append_slash ('/' :: generate options.RandomUrlLength)
    have hp : hasPrefix ('/' :: generate options.RandomUrlLength ++ ['/']) ['/'] = true :=
      hasPrefix_slash_cons _
    simp only [effectivePath, hrand, if_true, String.toList, List.cons_append, List.nil_append,
      List.singleton_append] at hs hp ⊢
    simp [hs, hp]
  rw [h]
  exact ⟨rfl, by simp [hgen]⟩

/-- Witness of C8 (amended) with length 8. -/
theorem effectivePath_random_witness :
    effectivePath constantGenerate randomUrlOptions = "/aaaaaaaa/".toList ∧
      (effectivePath constantGenerate randomUrlOptions).length = 8 + 2 :=
  effectivePath_random constantGenerate randomUrlOptions rfl (by decide)

/-! ### TLS configuration -/

/-- C9: `tlsConfig` fails exactly when the CA file cannot be read or holds no parseable
certificate; otherwise its result requires and verifies client certificates against the
pool parsed from that file. `setupHTTPServer` leaves the TLS configuration unset when
`EnableTLSClientAuth` is off, attaches the result of `tlsConfig` when it is on, and returns
the wrapped error and no server when `tlsConfig` fails. -/
theorem tlsConfig_setupHTTPServer (env : Env) (options : Options) (handler : Handler) :
    ((∃ e, tlsConfig env options = Except.error e) ↔
        ((∃ e, env.readFile (env.expand options.TLSCACrtFile) = Except.error e) ∨
          ∃ data, env.readFile (env.expand options.TLSCACrtFile) = Except.ok data ∧
            env.parseCerts data = [])) ∧
      (∀ data, env.readFile (env.expand options.TLSCACrtFile) = Except.ok data →
        env.parseCerts data ≠ [] →
        tlsConfig env options =
          Except.ok { ClientCAs := env.parseCerts data,
                      ClientAuth := ClientAuthType.RequireAndVerifyClientCert }) ∧
      (options.EnableTLSClientAuth = false →
        setupHTTPServer env options handler =
          Except.ok { Handler := handler, TLSConfig := none }) ∧
      (options.EnableTLSClientAuth = true → ∀ cfg, tlsConfig env options = Except.ok cfg →
        setupHTTPServer env options handler =
          Except.ok { Handler := handler, TLSConfig := some cfg }) ∧
      (options.EnableTLSClientAuth = true → ∀ e, tlsConfig env options = Except.error e →
        setupHTTPServer env options handler =
          Except.error (GoError.wrap e "failed to setup TLS configuration".toList)) := by
  refine ⟨?_, ?_, ?_, ?_, ?_⟩
  · cases hr : env.readFile (env.expand options.TLSCACrtFile) with
    | error e => simp [tlsConfig, hr]
    | ok data =>
      by_cases hp : env.parseCerts data = []
      · simp [tlsConfig, hr, hp]
      · simp [tlsConfig, hr, hp]
  · intro data hr hp
    simp [tlsConfig, hr, hp]
  · intro h
    simp [setupHTTPServer, h]
  · intro h cfg hc
    simp [setupHTTPServer, h, hc]
  · intro h e hc
    simp [setupHTTPServer, h, hc]

/-- Witness of C9: a readable CA file with one certificate, and an unreadable one. -/
theorem tlsConfig_setupHTTPServer_witness :
    setupHTTPServer permissiveEnv clientAuthOptions handleWS =
        Except.ok
          { Handler := handleWS,
            TLSConfig := some
              { ClientCAs := ["data".toList],
                ClientAuth := ClientAuthType.RequireAndVerifyClientCert } } ∧
      setupHTTPServer unreadableEnv clientAuthOptions handleWS =
        Except.error (GoError.wrap (GoError.new "could not open CA crt file ca.crt".toList)
          "failed to setup TLS configuration".toList) :=
  ⟨(tlsConfig_setupHTTPServer permissiveEnv clientAuthOptions handleWS).2.2.2.1 rfl _ rfl,
    (tlsConfig_setupHTTPServer unreadableEnv clientAuthOptions handleWS).2.2.2.2 rfl _ rfl⟩

/-! ### The origin check -/

/-- A custom index file that does not parse as a template makes `New` panic (line 56)
instead of returning an error. -/
theorem New_custom_index_panics :
    ∃ msg, New badIndexEnv { IndexFile := "badtmpl.html".toList } = Outcome.panic msg :=
  ⟨_, rfl⟩

/-- C3 as stated fails: with no Origin pattern, the upgrader made by `New` accepts the
request from `https://example.com` to the host `example.com` and rejects the one from
`https://evil.com`. -/
theorem new_empty_wsOrigin_rejects_cross_origin :
    ({} : Options).WSOrigin = [] ∧
      ∃ s, New permissiveEnv {} = Outcome.ok s ∧
        s.upgrader.originAllowed claimOriginHost sameOriginRequest = true ∧
        s.upgrader.originAllowed claimOriginHost crossOriginRequest = false :=
  ⟨rfl, _, rfl, by decide, by decide⟩

theorem New_ok_checkOrigin (env : Env) (options : Options) (s : Server)
    (hws : options.WSOrigin = []) (hnew : New env options = Outcome.ok s) :
    s.upgrader.CheckOrigin = none := by
  unfold New at hnew
  simp only [hws, ne_eq, not_true_eq_false, if_false] at hnew
  repeat' split at hnew
  all_goals first
    | cases hnew; rfl
    | cases hnew

/-- The fold comparison of the WebSocket library holds exactly of strings that are equal
once their ASCII upper-case letters are lowered. -/
theorem equalASCIIFold_iff (s t : GoString) :
    equalASCIIFold s t = true ↔ s.map asciiLower = t.map asciiLower := by
  induction s generalizing t with
  | nil =>
    cases t with
    | nil => simp [equalASCIIFold]
    | cons b t => simp [equalASCIIFold]
  | cons a s ih =>
    cases t with
    | nil => simp [equalASCIIFold]
    | cons b t =>
      simp only [equalASCIIFold, List.map_cons, List.cons.injEq]
      by_cases hab : a = b
      · subst hab
        simp [ih]
      · simp only [hab, if_false]
        by_cases hl : asciiLower a = asciiLower b
        · have hl2 := hl
          unfold asciiLower at hl2
          simp only [hl2, if_true, hl, true_and]
          exact ih t
        · have hl2 := hl
          unfold asciiLower at hl2
          simp [hl2, hl]

/-- C3 (amended): with no Origin pattern, `New` installs no origin check of its own
(`CheckOrigin` is nil), so the upgrade endpoint is restricted by the same-origin check of
the WebSocket library: a request without `Origin` header is accepted, a request whose
first `Origin` value does not parse is rejected, and a request whose `Origin` parses to an
ASCII host is accepted exactly when that host equals the request's ASCII `Host` up to the
case of letters. -/
theorem new_empty_wsOrigin_same_origin (env : Env) (options : Options) (s : Server)
    (parseHost : GoString → Option GoString) (r : Request)
    (hws : options.WSOrigin = []) (hnew : New env options = Outcome.ok s) :
    s.upgrader.CheckOrigin = none ∧
      (r.Origin = [] → s.upgrader.originAllowed parseHost r = true) ∧
      (∀ origin rest, r.Origin = origin :: rest → parseHost origin = none →
        s.upgrader.originAllowed parseHost r = false) ∧
      (∀ origin rest host, r.Origin = origin :: rest → parseHost origin = some host →
        isASCII host → isASCII r.Host →
        (s.upgrader.originAllowed parseHost r = true ↔
          host.map asciiLower = r.Host.map asciiLower)) := by
  have hnone := New_ok_checkOrigin env options s hws hnew
  refine ⟨hnone, ?_, ?_, ?_⟩
  · intro hO
    simp [Upgrader.originAllowed, hnone, checkSameOrigin, hO]
  · intro origin rest hO hp
    simp [Upgrader.originAllowed, hnone, checkSameOrigin, hO, hp]
  · intro origin rest host hO hp _ _
    simp only [Upgrader.originAllowed, hnone, checkSameOrigin, hO, hp]
    exact equalASCIIFold_iff host r.Host

/-- Witness of C3 (amended): the server made from the default options, on the request from
`https://evil.com` to the host `example.com`. -/
theorem new_empty_wsOrigin_same_origin_witness :
    New permissiveEnv {} = Outcome.ok defaultServer ∧
      (defaultServer.upgrader.originAllowed claimOriginHost crossOriginRequest = true ↔
        "evil.com".toList.map asciiLower = "example.com".toList.map asciiLower) :=
  ⟨rfl, (new_empty_wsOrigin_same_origin permissiveEnv {} defaultServer claimOriginHost
    crossOriginRequest rfl rfl).2.2.2 "https://evil.com".toList [] "evil.com".toList rfl
    (by decide) (by decide) (by decide)⟩

/-! ### `Run` -/

/-- A graceful shutdown returns nil, a failure of the accept loop returns its error, and
both close the listener. -/
theorem Run_examples :
    Run permissiveEnv constantGenerate plainEncode {} gracefulSchedule =
        some { err := none, listenerBound := false, serveStarted := true } ∧
      Run permissiveEnv constantGenerate plainEncode {} acceptFailureSchedule =
        some { err := some (GoError.new "accept: too many open files".toList),
               listenerBound := false, serveStarted := true } := by
  decide

/-- C4 (defect): the context is cancelled while the server accepts, the `select` takes the
`cctx.Done()` arm and `Run` assigns `cctx.Err()`, which is `context.Canceled`; the serving
goroutine then stores the result of `srv.Serve` in the same variable `err`, and `Run`
returns `http.ErrServerClosed`. When the goroutine stores first, `Run` returns
`context.Canceled`. -/
theorem Run_hard_cancel_returns_serve_error :
    (∃ st, exec permissiveEnv {} (cancelSchedule.take 5) {} = some st ∧
        st.mainPc = MainPc.drain ∧ st.cctxErr = some GoError.Canceled ∧
        st.err = some GoError.Canceled) ∧
      Run permissiveEnv constantGenerate plainEncode {} cancelSchedule =
        some { err := some GoError.ErrServerClosed, listenerBound := false,
               serveStarted := true } ∧
      Run permissiveEnv constantGenerate plainEncode {} cancelScheduleEarlyStore =
        some { err := some GoError.Canceled, listenerBound := false,
               serveStarted := true } := by
  refine ⟨⟨_, rfl, ?_, ?_, ?_⟩, ?_, ?_⟩ <;> decide

/-- C10 (defect): with an SSO URL that `url.ParseRequestURI` rejects, `Run` returns the
wrapped error after `net.Listen` succeeded, and the listener is still open; with a TLS key
pair that cannot be loaded, `Run` returns the load error and the listener is still open. In
both cases the accept loop was never entered. -/
theorem Run_startup_failure_leaves_listener :
    Run badUriEnv constantGenerate plainEncode badSsoOptions [] =
        some { err := some (GoError.wrap (GoError.new "invalid URI for request".toList)
                 "Invalid SSO URL: sso.example.com".toList),
               listenerBound := true, serveStarted := false } ∧
      Run badKeyPairEnv constantGenerate plainEncode tlsOptions serveFailureSchedule =
        some { err := some (GoError.new "open server.crt: no such file".toList),
               listenerBound := true, serveStarted := false } := by
  decide

/-- The channel `srvErr` holds a value only after the serving goroutine has finished. -/
theorem step_srvErr_done (env : Env) (options : Options) (a : Action) (st st1 : RunState)
    (h : step env options a st = some st1)
    (hinv : st.srvErr ≠ none → st.servePc = ServePc.done) :
    st1.srvErr ≠ none → st1.servePc = ServePc.done := by
  unfold step at h
  cases a <;> simp only [] at h
  case serve =>
    unfold serveStep at h
    repeat' split at h
    all_goals cases h <;> simp_all
  case main =>
    unfold mainStep at h
    repeat' split at h
    all_goals cases h <;> simp_all [closeListeners]
  all_goals
    repeat' split at h
    all_goals cases h <;> simp_all [closeListeners]

theorem exec_srvErr_done (env : Env) (options : Options) (schedule : List Action)
    (st st1 : RunState) (h : exec env options schedule st = some st1)
    (hinv : st.srvErr ≠ none → st.servePc = ServePc.done) :
    st1.srvErr ≠ none → st1.servePc = ServePc.done := by
  induction schedule generalizing st with
  | nil =>
    simp only [exec, Option.some.injEq] at h
    subst h
    exact hinv
  | cons a schedule ih =>
    simp only [exec] at h
    split at h
    · rename_i st2 hstep
      exact ih st2 h (step_srvErr_done env options a st st2 hstep hinv)
    · cases h

theorem step_settled (env : Env) (options : Options) (a : Action) (value : Option GoError)
    (st st1 : RunState) (h : step env options a st = some st1) (hs : settled value st) :
    settled value st1 := by
  obtain ⟨hdone, hmain⟩ := hs
  unfold step at h
  cases a <;> simp only [] at h
  case serve =>
    simp [serveStep, hdone] at h
  case main =>
    unfold mainStep at h
    rcases hmain with ⟨herr, hpc | hpc⟩ | hpc
    all_goals (rw [hpc] at h; simp only at h)
    · split at h
      · cases h; simp_all [settled]
      · cases h
    · cases h; simp_all [settled]
    · cases h
  all_goals
    repeat' split at h
    all_goals cases h <;> simp_all [settled, closeListeners]

theorem exec_settled (env : Env) (options : Options) (schedule : List Action)
    (value : Option GoError) (st st1 : RunState)
    (h : exec env options schedule st = some st1) (hs : settled value st) :
    settled value st1 := by
  induction schedule generalizing st with
  | nil =>
    simp only [exec, Option.some.injEq] at h
    subst h
    exact hs
  | cons a schedule ih =>
    simp only [exec] at h
    split at h
    · rename_i st2 hstep
      exact ih st2 h (step_settled env options a value st st2 hstep hs)
    · cases h

/-- In every schedule in which the `select` takes the `srvErr` arm, `Run` returns nil when
the value received is `http.ErrServerClosed`, and the value received otherwise. -/
theorem exec_selectSrvErr_returns (env : Env) (options : Options)
    (before after : List Action) (st st2 : RunState) (e : GoError) (value : Option GoError)
    (hbefore : exec env options before {} = some st) (hrecv : st.srvErr = some e)
    (hafter : exec env options (Action.selectSrvErr :: after) st = some st2)
    (hret : st2.mainPc = MainPc.returned value) :
    value = if e = GoError.ErrServerClosed then none else some e := by
  have hdone : st.servePc = ServePc.done :=
    exec_srvErr_done env options before {} st hbefore (fun h => absurd rfl h) (by simp [hrecv])
  simp only [exec] at hafter
  split at hafter
  · rename_i st1 hstep
    have hs1 : settled (if e = GoError.ErrServerClosed then none else some e) st1 := by
      simp only [step, hrecv] at hstep
      split at hstep
      · split at hstep
        · cases hstep
          rename_i he
          simp [settled, hdone, he]
        · cases hstep
          rename_i he
          simp [settled, hdone, he]
      · cases hstep
    have hs2 := exec_settled env options after _ st1 st2 hafter hs1
    rcases hs2 with ⟨_, ⟨_, hpc | hpc⟩ | hpc⟩
    · rw [hpc] at hret; cases hret
    · rw [hpc] at hret; cases hret
    · rw [hpc] at hret
      injection hret with hv
      exact hv.symm
  · cases hafter

end Gotty
